import Mathlib

/-!
# wxocr: a client for a remote OCR service

A shallow embedding of `main.go`.  The two operations of the program,
`ocrRecognize` and `ocrRecognizeBase64`, are pure functions of a `World`
(the file system and the network, given as oracles) that return the trace of
external actions together with the Go result pair `(*OCRResponse, error)`.

The library functions the program calls are modelled next to it:
`base64.StdEncoding`, `json.Marshal`, `json.Unmarshal` (scanner, unquoting,
field matching, `strconv.ParseInt`, `strconv.ParseFloat`), IEEE-754 binary64
arithmetic as far as the program uses it, and `fmt.Printf`.

Go strings are modelled by Lean strings, that is by sequences of Unicode code
points; image data are sequences of bytes.
-/

set_option exponentiation.threshold 4096

namespace Wxocr

/-! ## Bytes and base64 (`encoding/base64`, `StdEncoding`) -/

abbrev Byte := Fin 256

/-- The alphabet of `base64.StdEncoding`. -/
def encodeStd : List Char :=
  "ABCDEFGHIJKLMNOPQRSTUVWXYZabcdefghijklmnopqrstuvwxyz0123456789+/".toList

/-- The table lookup `enc.encode[v & 0x3F]`. -/
def encChar (v : Nat) : Char := encodeStd.getD (v % 64) 'A'

/-- The loop of `Encoding.Encode`: three source bytes give four characters, and the
remaining one or two bytes give a block padded with `=`. -/
def encodeChars : List Byte → List Char
  | b0 :: b1 :: b2 :: rest =>
      let val := b0.val * 65536 + b1.val * 256 + b2.val
      encChar (val / 262144) :: encChar (val / 4096) :: encChar (val / 64) :: encChar val
        :: encodeChars rest
  | [b0, b1] =>
      let val := b0.val * 65536 + b1.val * 256
      [encChar (val / 262144), encChar (val / 4096), encChar (val / 64), '=']
  | [b0] =>
      let val := b0.val * 65536
      [encChar (val / 262144), encChar (val / 4096), '=', '=']
  | [] => []

/-- The function `base64.StdEncoding.EncodeToString`. -/
def EncodeToString (src : List Byte) : String := String.mk (encodeChars src)

/-- The inverse table `decodeMap` of the standard alphabet. -/
def decChar (c : Char) : Option Nat :=
  let i := encodeStd.indexOf c
  if i < 64 then some i else none

def mkByte (n : Nat) : Byte := ⟨n % 256, Nat.mod_lt _ (by decide)⟩

/-- Decoding of padded quanta: four characters give three bytes, a final quantum ending
in `=` or `==` gives two bytes or one. -/
def decodeChars : List Char → Option (List Byte)
  | [] => some []
  | c0 :: c1 :: c2 :: c3 :: rest =>
      if c3 = '=' then
        if rest = [] then
          if c2 = '=' then
            (decChar c0).bind fun s0 => (decChar c1).bind fun s1 =>
              some [mkByte (s0 * 4 + s1 / 16)]
          else
            (decChar c0).bind fun s0 => (decChar c1).bind fun s1 => (decChar c2).bind fun s2 =>
              some [mkByte (s0 * 4 + s1 / 16), mkByte (s1 * 16 + s2 / 4)]
        else none
      else
        (decChar c0).bind fun s0 => (decChar c1).bind fun s1 => (decChar c2).bind fun s2 =>
          (decChar c3).bind fun s3 => (decodeChars rest).bind fun tl =>
            some (mkByte (s0 * 4 + s1 / 16) :: mkByte (s1 * 16 + s2 / 4)
              :: mkByte (s2 * 64 + s3) :: tl)
  | _ => none

/-- The function `base64.StdEncoding.DecodeString`; carriage returns and line feeds in
the input are skipped, as the library does. -/
def DecodeString (s : String) : Option (List Byte) :=
  decodeChars (s.toList.filter fun c => !(c = '\r' || c = '\n'))

/-! ## Errors, the world and the trace of actions -/

/-- Go error values.  `text` is an error with the given message (also the errors of
`os`, `net/http` and `io`, whose messages the world chooses), the next two are the
errors of `encoding/json`, and `errorf format a` is `fmt.Errorf(format, a)` with the
format string of the source. -/
inductive GoError where
  | text (msg : String)
  | jsonSyntaxError
  | unmarshalTypeError (value : String) (goType : String)
  | errorf (format : String) (a : GoError)
  deriving DecidableEq

/-- An HTTP response as the program sees it: the status code, and what
`ioutil.ReadAll(resp.Body)` yields. -/
structure HttpResponse (β : Type) where
  StatusCode : Nat
  Body : Except GoError β

/-- The environment of one call: `os.ReadFile`, `http.Get` and `http.Post`. -/
structure World where
  ReadFile : String → Except GoError (List Byte)
  Get : String → Except GoError (HttpResponse (List Byte))
  Post : String → String → String → Except GoError (HttpResponse String)

/-- External actions, in the order in which a call performs them.  `Close` is a
deferred `resp.Body.Close()`, `Print` is a write to standard output. -/
inductive Event where
  | ReadFile (name : String)
  | Get (url : String)
  | Post (url : String) (contentType : String) (body : String)
  | Close
  | Print (s : String)
  deriving DecidableEq

/-- The text written to standard output by a trace. -/
def stdout (t : List Event) : List String :=
  t.filterMap fun e => match e with
    | .Print s => some s
    | _ => none

def Event.isNetwork : Event → Bool
  | .Get _ => true
  | .Post _ _ _ => true
  | _ => false

/-! ## IEEE-754 binary64 (`float64`) -/

/-- A `float64` that is not a NaN: `fin neg m e` is `(-1)^neg * m * 2^e`, with
`m < 2^53` and `-1074 ≤ e ≤ 971`, and `2^52 ≤ m` unless `e = -1074`. -/
inductive F64 where
  | fin (neg : Bool) (m : Nat) (e : Int)
  | inf (neg : Bool)
  deriving DecidableEq

/-- The zero value of a `float64` variable. -/
def F64.zero : F64 := .fin false 0 (-1074)

/-- The integer nearest to `n / d`, ties to even. -/
def roundHalfEven (n d : Nat) : Nat :=
  let q := n / d
  let r := n % d
  if 2 * r > d ∨ (2 * r = d ∧ q % 2 = 1) then q + 1 else q

def bitLenAux : Nat → Nat → Nat
  | 0, _ => 0
  | fuel + 1, n =>
    if n = 0 then 0
    else if n < 2 ^ 64 then bitLenAux fuel (n / 2) + 1
    else bitLenAux fuel (n / 2 ^ 64) + 64

/-- The number of binary digits of `n`. -/
def bitLen (n : Nat) : Nat := bitLenAux n n

/-- The `float64` nearest to `(-1)^neg * n / d` (round to nearest, ties to even), with
gradual underflow, and overflow to an infinity.  The quotient is taken in units of
`2^-1074`, the smallest positive `float64`; `ex` is the exponent of the result above
`-1074`. -/
def roundToF64 (neg : Bool) (n d : Nat) : F64 :=
  if n = 0 then .fin neg 0 (-1074)
  else
    let ex := bitLen (n * 2 ^ 1074 / d) - 53
    let q := roundHalfEven (n * 2 ^ 1074) (d * 2 ^ ex)
    let m := if q = 2 ^ 53 then 2 ^ 52 else q
    let ex1 := if q = 2 ^ 53 then ex + 1 else ex
    if ex1 > 2045 then .inf neg else .fin neg m ((ex1 : Int) - 1074)

/-- The product `x * 100` of the source expression `result.Rate*100`. -/
def mul100 : F64 → F64
  | .inf neg => .inf neg
  | .fin neg m e => roundToF64 neg (m * 100 * 2 ^ e.toNat) (2 ^ (-e).toNat)

/-! ## Number conversion (`strconv`) -/

def digitsVal (ds : List Char) : Nat :=
  ds.foldl (fun a c => a * 10 + (c.toNat - 48)) 0

def takeDigits : List Char → List Char × List Char
  | [] => ([], [])
  | c :: cs =>
    if c.isDigit then ((takeDigits cs).1.cons c, (takeDigits cs).2) else ([], c :: cs)

/-- The call `strconv.ParseInt(s, 10, 64)`; `none` is a syntax or a range error. -/
def ParseInt (s : String) : Option Int :=
  let cs := s.toList
  let neg := cs.head? = some '-'
  let ds := if cs.head? = some '-' ∨ cs.head? = some '+' then cs.tail else cs
  if ds = [] ∨ ¬ ds.all Char.isDigit then none
  else
    let n := digitsVal ds
    if neg then (if n ≤ 2 ^ 63 then some (-(n : Int)) else none)
    else (if n < 2 ^ 63 then some (n : Int) else none)

/-- A decimal literal read as sign, digits and power of ten: the literal stands for
`(-1)^neg * mant * 10^ex`.  `none` is a syntax error. -/
def readDecimal (s : String) : Option (Bool × Nat × Int) :=
  let cs := s.toList
  let neg := cs.head? = some '-'
  let cs0 := if cs.head? = some '-' ∨ cs.head? = some '+' then cs.tail else cs
  let ip := (takeDigits cs0).1
  let cs1 := (takeDigits cs0).2
  let fp := if cs1.head? = some '.' then (takeDigits cs1.tail).1 else []
  let cs2 := if cs1.head? = some '.' then (takeDigits cs1.tail).2 else cs1
  let hasExp := cs2.head? = some 'e' ∨ cs2.head? = some 'E'
  let cs3 := if hasExp then cs2.tail else cs2
  let eneg := cs3.head? = some '-'
  let cs4 := if hasExp ∧ (cs3.head? = some '-' ∨ cs3.head? = some '+') then cs3.tail else cs3
  let ep := if hasExp then (takeDigits cs4).1 else []
  let cs5 := if hasExp then (takeDigits cs4).2 else cs4
  if (ip = [] ∧ fp = []) ∨ (hasExp ∧ ep = []) ∨ cs5 ≠ [] then none
  else
    let mant := digitsVal (ip ++ fp)
    let ex : Int :=
      (if eneg then -(digitsVal ep : Int) else (digitsVal ep : Int)) - (fp.length : Int)
    some (decide neg, mant, ex)

/-- The call `strconv.ParseFloat(s, 64)` on decimal literals (the only ones that the
JSON scanner lets through): the nearest `float64`; `none` is a syntax error or the
range error of a literal that rounds to an infinity. -/
def ParseFloat (s : String) : Option F64 :=
  match readDecimal s with
  | none => none
  | some (neg, mant, ex) =>
    match roundToF64 neg (mant * 10 ^ ex.toNat) (10 ^ (-ex).toNat) with
    | .inf _ => none
    | .fin n m e => some (.fin n m e)

def natDigitsAux : Nat → Nat → List Char → List Char
  | 0, _, acc => acc
  | fuel + 1, n, acc =>
    if n < 10 then Char.ofNat (n + 48) :: acc
    else natDigitsAux fuel (n / 10) (Char.ofNat (n % 10 + 48) :: acc)

/-- The decimal digits of `n`. -/
def natDigits (n : Nat) : List Char := natDigitsAux (n + 1) n []

/-- The conversion `strconv.AppendFloat(_, x, 'f', prec, 64)` as `fmt` prints it for the
verb `%.<prec>f`: the exact binary value rounded to `prec` decimals, ties to even. -/
def fmtFloat (prec : Nat) : F64 → List Char
  | .inf neg => if neg then "-Inf".toList else "+Inf".toList
  | .fin neg m e =>
    let q := roundHalfEven (m * 2 ^ e.toNat * 10 ^ prec) (2 ^ (-e).toNat)
    let ip := natDigits (q / 10 ^ prec)
    let fp := natDigits (q % 10 ^ prec)
    (if neg then ['-'] else []) ++ ip ++
      (if prec = 0 then [] else '.' :: (List.replicate (prec - fp.length) '0' ++ fp))

/-! ## JSON values and the scanner of `encoding/json` -/

/-- A JSON value.  A number keeps its literal, which the decoder hands to `strconv`;
an object keeps its members in the order of the text, repeated keys included. -/
inductive JValue where
  | null
  | bool (b : Bool)
  | num (lit : String)
  | str (s : String)
  | arr (xs : List JValue)
  | obj (kvs : List (String × JValue))

def isSpace (c : Char) : Bool := c = ' ' || c = '\t' || c = '\r' || c = '\n'

def skipSpace : List Char → List Char
  | [] => []
  | c :: cs => if isSpace c then skipSpace cs else c :: cs

def hexVal (c : Char) : Option Nat :=
  if '0' ≤ c ∧ c ≤ '9' then some (c.toNat - 48)
  else if 'a' ≤ c ∧ c ≤ 'f' then some (c.toNat - 97 + 10)
  else if 'A' ≤ c ∧ c ≤ 'F' then some (c.toNat - 65 + 10)
  else none

def isHex (c : Char) : Bool := (hexVal c).isSome

/-- The function `getu4`: the code unit of a leading `\uXXXX`. -/
def getu4 : List Char → Option Nat
  | '\\' :: 'u' :: a :: b :: c :: d :: _ =>
    (hexVal a).bind fun x => (hexVal b).bind fun y => (hexVal c).bind fun z =>
      (hexVal d).bind fun w => some (((x * 16 + y) * 16 + z) * 16 + w)
  | _ => none

/-- The single-character escapes of a JSON string. -/
def unescape (c : Char) : Option Char :=
  if c = '"' then some '"'
  else if c = '\\' then some '\\'
  else if c = '/' then some '/'
  else if c = 'b' then some '\x08'
  else if c = 'f' then some '\x0c'
  else if c = 'n' then some '\n'
  else if c = 'r' then some '\r'
  else if c = 't' then some '\t'
  else none

def replacementChar : Char := Char.ofNat 0xFFFD

/-- The scanner inside a string, after the opening quote: the raw text up to the closing
quote and the rest of the input.  Control characters and malformed escapes are
rejected. -/
def scanString : List Char → Option (List Char × List Char)
  | [] => none
  | c :: rest =>
    if c = '"' then some ([], rest)
    else if c = '\\' then
      match rest with
      | [] => none
      | e :: rest1 =>
        if e = 'u' then
          match rest1 with
          | h1 :: h2 :: h3 :: h4 :: rest2 =>
            if isHex h1 && isHex h2 && isHex h3 && isHex h4 then
              (scanString rest2).map fun (s, r) => (c :: e :: h1 :: h2 :: h3 :: h4 :: s, r)
            else none
          | _ => none
        else if (unescape e).isSome then
          (scanString rest1).map fun (s, r) => (c :: e :: s, r)
        else none
    else if c.toNat < 0x20 then none
    else (scanString rest).map fun (s, r) => (c :: s, r)

/-- The escape sequence after a backslash, as `unquote` reads it: the characters it
stands for and the number of characters it takes.  A surrogate pair gives one code
point, a lone surrogate gives U+FFFD.  (The scanner has checked the escapes; a
malformed one, which cannot occur, takes nothing.) -/
def decodeEscape (rest : List Char) : List Char × Nat :=
  match rest with
  | [] => ([], 0)
  | e :: rest1 =>
    if e = 'u' then
      match getu4 ('\\' :: rest) with
      | none => ([], 0)
      | some rr =>
        if 0xD800 ≤ rr ∧ rr < 0xE000 then
          match getu4 (rest1.drop 4) with
          | some rr1 =>
            if rr < 0xDC00 ∧ 0xDC00 ≤ rr1 ∧ rr1 < 0xE000 then
              ([Char.ofNat ((rr - 0xD800) * 1024 + (rr1 - 0xDC00) + 0x10000)], 11)
            else ([replacementChar], 5)
          | none => ([replacementChar], 5)
        else ([Char.ofNat rr], 5)
    else
      match unescape e with
      | some x => ([x], 1)
      | none => ([], 0)

/-- The loop of `unquote`; `skip` counts the characters of an escape sequence that are
still to be passed over. -/
def unquoteAux : Nat → List Char → List Char
  | _, [] => []
  | skip + 1, _ :: rest => unquoteAux skip rest
  | 0, c :: rest =>
    if c = '\\' then (decodeEscape rest).1 ++ unquoteAux (decodeEscape rest).2 rest
    else c :: unquoteAux 0 rest

/-- The function `unquote` on the raw text of a scanned string. -/
def unquote (s : List Char) : List Char := unquoteAux 0 s

/-- The integer part of a number: a single `0`, or a digit from 1 to 9 followed by
digits. -/
def scanInt : List Char → Option (List Char × List Char)
  | [] => none
  | c :: r =>
    if c = '0' then some (['0'], r)
    else if c.isDigit then some (c :: (takeDigits r).1, (takeDigits r).2)
    else none

/-- The optional fraction of a number: a point followed by at least one digit. -/
def scanFrac : List Char → Option (List Char × List Char)
  | [] => some ([], [])
  | c :: r =>
    if c = '.' then
      if (takeDigits r).1 = [] then none else some ('.' :: (takeDigits r).1, (takeDigits r).2)
    else some ([], c :: r)

/-- The optional exponent of a number: `e` or `E`, an optional sign, at least one
digit. -/
def scanExp : List Char → Option (List Char × List Char)
  | [] => some ([], [])
  | c :: r =>
    if c = 'e' ∨ c = 'E' then
      let sg := if r.head? = some '+' ∨ r.head? = some '-' then r.take 1 else []
      let r1 := if r.head? = some '+' ∨ r.head? = some '-' then r.tail else r
      if (takeDigits r1).1 = [] then none
      else some (c :: sg ++ (takeDigits r1).1, (takeDigits r1).2)
    else some ([], c :: r)

/-- The scanner on a number: the literal and the rest of the input. -/
def scanNumber (cs : List Char) : Option (String × List Char) :=
  let sign := if cs.head? = some '-' then ['-'] else []
  let cs0 := if cs.head? = some '-' then cs.tail else cs
  (scanInt cs0).bind fun (ip, cs1) =>
    (scanFrac cs1).bind fun (fp, cs2) =>
      (scanExp cs2).bind fun (ep, cs3) => some (String.mk (sign ++ ip ++ fp ++ ep), cs3)

/-- The constant `maxNestingDepth` of the scanner. -/
def maxNestingDepth : Nat := 10000

def expectLit (p : List Char) (cs : List Char) : Option (List Char) :=
  if p.isPrefixOf cs then some (cs.drop p.length) else none

mutual
/-- One JSON value at the head of the input (which does not start with white space),
at the given nesting depth. -/
def scanValue : Nat → Nat → List Char → Option (JValue × List Char)
  | 0, _, _ => none
  | _, _, [] => none
  | fuel + 1, depth, c :: cs =>
    if c = '\x7b' then
      if depth + 1 > maxNestingDepth then none
      else if (skipSpace cs).head? = some '\x7d' then some (JValue.obj [], (skipSpace cs).tail)
      else
        (scanMembers fuel (depth + 1) (skipSpace cs) []).map fun (kvs, r1) =>
          (JValue.obj kvs, r1)
    else if c = '[' then
      if depth + 1 > maxNestingDepth then none
      else if (skipSpace cs).head? = some ']' then some (JValue.arr [], (skipSpace cs).tail)
      else
        (scanElems fuel (depth + 1) (skipSpace cs) []).map fun (xs, r1) => (JValue.arr xs, r1)
    else if c = '"' then
      (scanString cs).map fun (s, r) => (JValue.str (String.mk (unquote s)), r)
    else if c = '-' ∨ c.isDigit then
      (scanNumber (c :: cs)).map fun (s, r) => (JValue.num s, r)
    else if c = 't' then (expectLit "rue".toList cs).map fun r => (JValue.bool true, r)
    else if c = 'f' then (expectLit "alse".toList cs).map fun r => (JValue.bool false, r)
    else if c = 'n' then (expectLit "ull".toList cs).map fun r => (JValue.null, r)
    else none
/-- The elements of an array after the first has been found to be present: a value,
then a comma and the other elements, or the closing bracket. -/
def scanElems : Nat → Nat → List Char → List JValue → Option (List JValue × List Char)
  | 0, _, _, _ => none
  | fuel + 1, depth, cs, acc =>
    (scanValue fuel depth cs).bind fun (v, r) =>
      if (skipSpace r).head? = some ',' then
        scanElems fuel depth (skipSpace (skipSpace r).tail) (acc ++ [v])
      else if (skipSpace r).head? = some ']' then some (acc ++ [v], (skipSpace r).tail)
      else none
/-- The members of an object after the first has been found to be present: a key, a
colon, a value, then a comma and the other members, or the closing brace. -/
def scanMembers : Nat → Nat → List Char → List (String × JValue) →
    Option (List (String × JValue) × List Char)
  | 0, _, _, _ => none
  | fuel + 1, depth, cs, acc =>
    if cs.head? = some '"' then
      (scanString cs.tail).bind fun (raw, r) =>
        if (skipSpace r).head? = some ':' then
          (scanValue fuel depth (skipSpace (skipSpace r).tail)).bind fun (v, r2) =>
            if (skipSpace r2).head? = some ',' then
              scanMembers fuel depth (skipSpace (skipSpace r2).tail)
                (acc ++ [(String.mk (unquote raw), v)])
            else if (skipSpace r2).head? = some '\x7d' then
              some (acc ++ [(String.mk (unquote raw), v)], (skipSpace r2).tail)
            else none
        else none
    else none
end

/-- A whole JSON text: one value between optional white space.  `none` is the
`SyntaxError` of `checkValid`.  The fuel, one more than the length of the text, is enough
for every text (`parseChars_complete`). -/
def parseChars (cs : List Char) : Option JValue :=
  (scanValue (cs.length + 1) 0 (skipSpace cs)).bind fun (v, r) =>
    if skipSpace r = [] then some v else none

def parseJSON (data : String) : Option JValue := parseChars data.toList

/-! ## `json.Marshal` of the request -/

/-- The request body type `OCRRequest`. -/
structure OCRRequest where
  Image : String

def hexDigit (n : Nat) : Char := "0123456789abcdef".toList.getD (n % 16) '0'

/-- One character of a string as the encoder writes it (with HTML escaping, which
`json.Marshal` turns on). -/
def escapeChar (c : Char) : List Char :=
  if c = '"' then ['\\', '"']
  else if c = '\\' then ['\\', '\\']
  else if c = '\x08' then ['\\', 'b']
  else if c = '\x0c' then ['\\', 'f']
  else if c = '\n' then ['\\', 'n']
  else if c = '\r' then ['\\', 'r']
  else if c = '\t' then ['\\', 't']
  else if c.toNat < 0x20 ∨ c = '<' ∨ c = '>' ∨ c = '&' then
    ['\\', 'u', '0', '0', hexDigit (c.toNat / 16), hexDigit c.toNat]
  else if c.toNat = 0x2028 ∨ c.toNat = 0x2029 then
    ['\\', 'u', '2', '0', '2', hexDigit c.toNat]
  else [c]

def quoteChars (s : List Char) : List Char := '"' :: (s.flatMap escapeChar ++ ['"'])

/-- The call `json.Marshal(OCRRequest\x7bImage: s\x7d)`: an object with the one member
`image`.  It does not fail. -/
def jsonMarshal (r : OCRRequest) : Except GoError String :=
  .ok (String.mk ("\x7b\"image\":".toList ++ quoteChars r.Image.toList ++ ['\x7d']))

/-! ## The response types and `json.Unmarshal` into them -/

/-- The struct `OCRResult`: one recognised text region. -/
structure OCRResult where
  Top : F64
  Bottom : F64
  Left : F64
  Right : F64
  Rate : F64
  Text : String
  deriving DecidableEq

/-- The struct `OCRResponseResult`: the `result` member of the response.  The slice
`OCRResponse` is a list; a nil slice and an empty slice are both the empty list. -/
structure OCRResponseResult where
  ErrCode : Int
  Height : Int
  Width : Int
  ImgPath : String
  OCRResponse : List OCRResult
  deriving DecidableEq

/-- The struct `OCRResponse`: the whole API response. -/
structure OCRResponse where
  Result : OCRResponseResult
  deriving DecidableEq

def OCRResult.zero : OCRResult := ⟨F64.zero, F64.zero, F64.zero, F64.zero, F64.zero, ""⟩

def OCRResponseResult.zero : OCRResponseResult := ⟨0, 0, 0, "", []⟩

/-- The value of `var ocrResponse OCRResponse`. -/
def OCRResponse.zero : OCRResponse := ⟨OCRResponseResult.zero⟩

inductive DetectionField where
  | Top | Bottom | Left | Right | Rate | Text
  deriving DecidableEq

inductive ResultField where
  | ErrCode | Height | Width | ImgPath | OCRResponse
  deriving DecidableEq

/-- The `json` tags of `OCRResult`. -/
def detectionFields : List (String × DetectionField) :=
  [("top", .Top), ("bottom", .Bottom), ("left", .Left), ("right", .Right),
   ("rate", .Rate), ("text", .Text)]

/-- The `json` tags of `OCRResponseResult`. -/
def resultFields : List (String × ResultField) :=
  [("errcode", .ErrCode), ("height", .Height), ("width", .Width), ("imgpath", .ImgPath),
   ("ocr_response", .OCRResponse)]

/-- The `json` tag of `OCRResponse`. -/
def responseFields : List (String × Unit) := [("result", ())]

/-- Simple case folding as far as it can reach an ASCII letter: the small letters, the
long s (U+017F) and the Kelvin sign (U+212A). -/
def foldRune (c : Char) : Char :=
  if 'a' ≤ c ∧ c ≤ 'z' then Char.ofNat (c.toNat - 32)
  else if c.toNat = 0x17F then 'S'
  else if c.toNat = 0x212A then 'K'
  else c

def foldName (s : String) : List Char := s.toList.map foldRune

/-- The field that a key of an object selects: the field with exactly this name, or
else the first field whose name equals the key under case folding. -/
def findField {α : Type} (fields : List (String × α)) (key : String) : Option α :=
  match fields.find? (fun f => f.1 = key) with
  | some f => some f.2
  | none => (fields.find? (fun f => foldName f.1 = foldName key)).map fun f => f.2

/-- Storing a JSON value in an `int` field. -/
def storeInt (x : JValue) (cur : Int) : Except GoError Int :=
  match x with
  | .null => .ok cur
  | .num lit =>
    match ParseInt lit with
    | some n => .ok n
    | none => .error (.unmarshalTypeError ("number " ++ lit) "int")
  | .bool _ => .error (.unmarshalTypeError "bool" "int")
  | .str _ => .error (.unmarshalTypeError "string" "int")
  | .arr _ => .error (.unmarshalTypeError "array" "int")
  | .obj _ => .error (.unmarshalTypeError "object" "int")

/-- Storing a JSON value in a `float64` field. -/
def storeFloat (x : JValue) (cur : F64) : Except GoError F64 :=
  match x with
  | .null => .ok cur
  | .num lit =>
    match ParseFloat lit with
    | some f => .ok f
    | none => .error (.unmarshalTypeError ("number " ++ lit) "float64")
  | .bool _ => .error (.unmarshalTypeError "bool" "float64")
  | .str _ => .error (.unmarshalTypeError "string" "float64")
  | .arr _ => .error (.unmarshalTypeError "array" "float64")
  | .obj _ => .error (.unmarshalTypeError "object" "float64")

/-- Storing a JSON value in a `string` field. -/
def storeString (x : JValue) (cur : String) : Except GoError String :=
  match x with
  | .null => .ok cur
  | .str s => .ok s
  | .num lit => .error (.unmarshalTypeError ("number " ++ lit) "string")
  | .bool _ => .error (.unmarshalTypeError "bool" "string")
  | .arr _ => .error (.unmarshalTypeError "array" "string")
  | .obj _ => .error (.unmarshalTypeError "object" "string")

/-- One member of an object stored in an `OCRResult`; a key that selects no field is
skipped. -/
def OCRResult.setField (cur : OCRResult) (k : String) (x : JValue) :
    Except GoError OCRResult :=
  match findField detectionFields k with
  | none => .ok cur
  | some .Top => (storeFloat x cur.Top).map fun v => { cur with Top := v }
  | some .Bottom => (storeFloat x cur.Bottom).map fun v => { cur with Bottom := v }
  | some .Left => (storeFloat x cur.Left).map fun v => { cur with Left := v }
  | some .Right => (storeFloat x cur.Right).map fun v => { cur with Right := v }
  | some .Rate => (storeFloat x cur.Rate).map fun v => { cur with Rate := v }
  | some .Text => (storeString x cur.Text).map fun v => { cur with Text := v }

def OCRResult.setFields : List (String × JValue) → OCRResult → Except GoError OCRResult
  | [], cur => .ok cur
  | (k, x) :: rest, cur =>
    match OCRResult.setField cur k x with
    | .error e => .error e
    | .ok cur1 => OCRResult.setFields rest cur1

/-- Storing a JSON value in an `OCRResult`: `null` leaves it as it is, an object sets
the fields that its members select, in the order of the text. -/
def storeOCRResult (x : JValue) (cur : OCRResult) : Except GoError OCRResult :=
  match x with
  | .null => .ok cur
  | .obj kvs => OCRResult.setFields kvs cur
  | .num lit => .error (.unmarshalTypeError ("number " ++ lit) "main.OCRResult")
  | .bool _ => .error (.unmarshalTypeError "bool" "main.OCRResult")
  | .str _ => .error (.unmarshalTypeError "string" "main.OCRResult")
  | .arr _ => .error (.unmarshalTypeError "array" "main.OCRResult")

/-- The elements of a JSON array stored in a slice: element `i` is decoded into the
element `i` that the slice already has, or into a zero `OCRResult` beyond its length
(spare capacity of the slice is taken to hold zero values). -/
def storeElems : List JValue → List OCRResult → Except GoError (List OCRResult)
  | [], _ => .ok []
  | x :: xs, cur =>
    match storeOCRResult x (cur.headD OCRResult.zero) with
    | .error e => .error e
    | .ok r =>
      match storeElems xs cur.tail with
      | .error e => .error e
      | .ok rs => .ok (r :: rs)

/-- Storing a JSON value in the slice field: `null` gives the nil slice, an array gives
a slice of the length of the array. -/
def storeSlice (x : JValue) (cur : List OCRResult) : Except GoError (List OCRResult) :=
  match x with
  | .null => .ok []
  | .arr xs => storeElems xs cur
  | .num lit => .error (.unmarshalTypeError ("number " ++ lit) "[]main.OCRResult")
  | .bool _ => .error (.unmarshalTypeError "bool" "[]main.OCRResult")
  | .str _ => .error (.unmarshalTypeError "string" "[]main.OCRResult")
  | .obj _ => .error (.unmarshalTypeError "object" "[]main.OCRResult")

def OCRResponseResult.setField (cur : OCRResponseResult) (k : String) (x : JValue) :
    Except GoError OCRResponseResult :=
  match findField resultFields k with
  | none => .ok cur
  | some .ErrCode => (storeInt x cur.ErrCode).map fun v => { cur with ErrCode := v }
  | some .Height => (storeInt x cur.Height).map fun v => { cur with Height := v }
  | some .Width => (storeInt x cur.Width).map fun v => { cur with Width := v }
  | some .ImgPath => (storeString x cur.ImgPath).map fun v => { cur with ImgPath := v }
  | some .OCRResponse =>
    (storeSlice x cur.OCRResponse).map fun v => { cur with OCRResponse := v }

def OCRResponseResult.setFields :
    List (String × JValue) → OCRResponseResult → Except GoError OCRResponseResult
  | [], cur => .ok cur
  | (k, x) :: rest, cur =>
    match OCRResponseResult.setField cur k x with
    | .error e => .error e
    | .ok cur1 => OCRResponseResult.setFields rest cur1

def storeOCRResponseResult (x : JValue) (cur : OCRResponseResult) :
    Except GoError OCRResponseResult :=
  match x with
  | .null => .ok cur
  | .obj kvs => OCRResponseResult.setFields kvs cur
  | .num lit => .error (.unmarshalTypeError ("number " ++ lit) "main.OCRResponseResult")
  | .bool _ => .error (.unmarshalTypeError "bool" "main.OCRResponseResult")
  | .str _ => .error (.unmarshalTypeError "string" "main.OCRResponseResult")
  | .arr _ => .error (.unmarshalTypeError "array" "main.OCRResponseResult")

def OCRResponse.setField (cur : OCRResponse) (k : String) (x : JValue) :
    Except GoError OCRResponse :=
  match findField responseFields k with
  | none => .ok cur
  | some () => (storeOCRResponseResult x cur.Result).map fun v => { cur with Result := v }

def OCRResponse.setFields : List (String × JValue) → OCRResponse → Except GoError OCRResponse
  | [], cur => .ok cur
  | (k, x) :: rest, cur =>
    match OCRResponse.setField cur k x with
    | .error e => .error e
    | .ok cur1 => OCRResponse.setFields rest cur1

def storeOCRResponse (x : JValue) (cur : OCRResponse) : Except GoError OCRResponse :=
  match x with
  | .null => .ok cur
  | .obj kvs => OCRResponse.setFields kvs cur
  | .num lit => .error (.unmarshalTypeError ("number " ++ lit) "main.OCRResponse")
  | .bool _ => .error (.unmarshalTypeError "bool" "main.OCRResponse")
  | .str _ => .error (.unmarshalTypeError "string" "main.OCRResponse")
  | .arr _ => .error (.unmarshalTypeError "array" "main.OCRResponse")

/-- The call `json.Unmarshal(data, &v)` for `v` of type `OCRResponse` holding `cur`:
a text that is not valid JSON is a `SyntaxError`, a value of the wrong kind for its
field is an `UnmarshalTypeError` (the first one in the text); otherwise the decoded
value. -/
def jsonUnmarshal (data : String) (cur : OCRResponse) : Except GoError OCRResponse :=
  match parseJSON data with
  | none => .error .jsonSyntaxError
  | some x => storeOCRResponse x cur

/-! ## `fmt.Printf` -/

/-- An operand of `Printf`. -/
inductive Arg where
  | str (s : String)
  | f64 (x : F64)

inductive FmtState where
  | lit
  | verb
  | prec (n : Nat)

/-- One verb applied to the next operand.  The program uses `%s` on a string and
`%.<n>f` on a `float64`; a missing operand and `%f` on a string are rendered as `fmt`
does, the rendering of a `float64` under a verb other than `f` is left out. -/
def printVerb (verb : Char) (prec : Option Nat) : List Arg → List Char
  | [] => '%' :: '!' :: verb :: "(MISSING)".toList
  | .str s :: _ =>
    if verb = 's' then
      match prec with
      | none => s.toList
      | some n => s.toList.take n
    else '%' :: '!' :: verb :: ("(string=".toList ++ s.toList ++ [')'])
  | .f64 x :: _ =>
    if verb = 'f' then fmtFloat (prec.getD 6) x
    else '%' :: '!' :: verb :: "(float64)".toList

/-- The formatting loop of `fmt`, for format strings made of text, `%%`, and verbs
with an optional precision. -/
def doPrintf : FmtState → List Char → List Arg → List Char
  | .lit, [], _ => []
  | _, [], _ => "%!(NOVERB)".toList
  | .lit, c :: cs, args =>
    if c = '%' then doPrintf .verb cs args else c :: doPrintf .lit cs args
  | .verb, c :: cs, args =>
    if c = '%' then '%' :: doPrintf .lit cs args
    else if c = '.' then doPrintf (.prec 0) cs args
    else printVerb c none args ++ doPrintf .lit cs args.tail
  | .prec n, c :: cs, args =>
    if c.isDigit then doPrintf (.prec (n * 10 + (c.toNat - 48))) cs args
    else printVerb c (some n) args ++ doPrintf .lit cs args.tail

def Sprintf (format : String) (args : List Arg) : String :=
  String.mk (doPrintf .lit format.toList args)

/-! ## The program -/

/-- The Go result pair `(*OCRResponse, error)`; `none` is `nil`. -/
structure Ret where
  resp : Option OCRResponse
  err : Option GoError
  deriving DecidableEq

/-- The line that the loop body prints for one detection. -/
def printResult (result : OCRResult) : Event :=
  .Print (Sprintf "\"%s\" (%.0f,%.0f,%.0f,%.0f) %.1f%%\n"
    [.str result.Text, .f64 result.Left, .f64 result.Right, .f64 result.Top,
     .f64 result.Bottom, .f64 (mul100 result.Rate)])

/-- The function `ocrRecognizeBase64`. -/
def ocrRecognizeBase64 (w : World) (base64Image : String) (apiUrl : String) :
    List Event × Ret :=
  match jsonMarshal ⟨base64Image⟩ with
  | .error err => ([], ⟨none, some (.errorf "JSON 编码失败: %v" err)⟩)
  | .ok reqBody =>
    match w.Post apiUrl "application/json" reqBody with
    | .error err =>
      ([.Post apiUrl "application/json" reqBody], ⟨none, some (.errorf "API 请求失败: %v" err)⟩)
    | .ok resp =>
      match resp.Body with
      | .error err =>
        ([.Post apiUrl "application/json" reqBody, .Close],
          ⟨none, some (.errorf "读取 API 响应失败: %v" err)⟩)
      | .ok body =>
        match jsonUnmarshal body OCRResponse.zero with
        | .error err =>
          ([.Post apiUrl "application/json" reqBody, .Close],
            ⟨none, some (.errorf "解析响应 JSON 失败: %v" err)⟩)
        | .ok ocrResponse =>
          (.Post apiUrl "application/json" reqBody :: .Print "OCR识别结果:\n" ::
            (ocrResponse.Result.OCRResponse.map printResult ++ [.Close]),
            ⟨some ocrResponse, none⟩)

/-- The function `ocrRecognize`. -/
def ocrRecognize (w : World) (imagePath : String) (imageUrl : String) (apiUrl : String) :
    List Event × Ret :=
  if imagePath ≠ "" then
    match w.ReadFile imagePath with
    | .error err => ([.ReadFile imagePath], ⟨none, some (.errorf "读取本地图像失败: %v" err)⟩)
    | .ok imgData =>
      let base64Image := EncodeToString imgData
      let r := ocrRecognizeBase64 w base64Image apiUrl
      (.ReadFile imagePath :: r.1, r.2)
  else if imageUrl ≠ "" then
    match w.Get imageUrl with
    | .error err => ([.Get imageUrl], ⟨none, some (.errorf "下载图像失败: %v" err)⟩)
    | .ok resp =>
      match resp.Body with
      | .error err =>
        ([.Get imageUrl, .Close], ⟨none, some (.errorf "读取图像数据失败: %v" err)⟩)
      | .ok imgData =>
        let base64Image := EncodeToString imgData
        let r := ocrRecognizeBase64 w base64Image apiUrl
        (.Get imageUrl :: (r.1 ++ [.Close]), r.2)
  else ([], ⟨none, some (.text "请提供 imagePath 或 imageUrl")⟩)

/-! ## Observations on traces, and sample worlds -/

/-- The `Post` actions of a trace: url, content type and body. -/
def posts (t : List Event) : List (String × String × String) :=
  t.filterMap fun e => match e with
    | .Post url ct body => some (url, ct, body)
    | _ => none

/-- The request body that `json.Marshal` produces for a base64 string. -/
def requestBody (base64Image : String) : String :=
  String.mk ("\x7b\"image\":".toList ++ quoteChars base64Image.toList ++ ['\x7d'])

/-- A world without files and without network: every action fails. -/
def deadWorld : World where
  ReadFile := fun _ => .error (.text "open: no such file or directory")
  Get := fun _ => .error (.text "dial tcp: connection refused")
  Post := fun _ _ _ => .error (.text "dial tcp: connection refused")

/-- A world in which every path and every URL holds the given image (the download
answers with status `getStatus`), and the API endpoint answers every request with
status `postStatus` and the given body. -/
def serverWorld (image : List Byte) (getStatus postStatus : Nat) (body : String) : World where
  ReadFile := fun _ => .ok image
  Get := fun _ => .ok ⟨getStatus, .ok image⟩
  Post := fun _ _ _ => .ok ⟨postStatus, .ok body⟩

/-- The line that `Printf` writes for one detection. -/
def detectionLine (d : OCRResult) : String :=
  Sprintf "\"%s\" (%.0f,%.0f,%.0f,%.0f) %.1f%%\n"
    [.str d.Text, .f64 d.Left, .f64 d.Right, .f64 d.Top, .f64 d.Bottom, .f64 (mul100 d.Rate)]

/-- A response body of the expected shape that reports a failure of the service. -/
def errorBody : String :=
  "\x7b\"result\":\x7b\"errcode\":-7,\"height\":0,\"width\":0,\"imgpath\":\"\"," ++
  "\"ocr_response\":[]\x7d\x7d"

/-- A character that the string scanner and the encoder pass through unchanged. -/
def plainChar (c : Char) : Prop :=
  c ≠ '"' ∧ c ≠ '\\' ∧ ¬ c.toNat < 0x20 ∧ escapeChar c = [c]

/-- The names of the members of a detection in the wire format. -/
def detectionKeys : List String := ["top", "bottom", "left", "right", "rate", "text"]

/-- The names of the members of the result envelope in the wire format. -/
def resultKeys : List String := ["errcode", "height", "width", "imgpath", "ocr_response"]

/-- A member `key: x` of a detection object carries the field of `d` with that name:
a number literal that denotes the `float64`, or the string. -/
def DetectionMember (d : OCRResult) (key : String) (x : JValue) : Prop :=
  (key = "top" ∧ ∃ l, x = .num l ∧ ParseFloat l = some d.Top) ∨
  (key = "bottom" ∧ ∃ l, x = .num l ∧ ParseFloat l = some d.Bottom) ∨
  (key = "left" ∧ ∃ l, x = .num l ∧ ParseFloat l = some d.Left) ∨
  (key = "right" ∧ ∃ l, x = .num l ∧ ParseFloat l = some d.Right) ∨
  (key = "rate" ∧ ∃ l, x = .num l ∧ ParseFloat l = some d.Rate) ∨
  (key = "text" ∧ x = .str d.Text)

/-- The JSON value `x` is a detection of the expected shape with the content `d`: an
object with exactly the six members, in any order. -/
def DetectionJSON (x : JValue) (d : OCRResult) : Prop :=
  ∃ kvs, x = .obj kvs ∧ (kvs.map Prod.fst).Perm detectionKeys ∧
    ∀ p ∈ kvs, DetectionMember d p.1 p.2

/-- A member `key: x` of the result object carries the field of `r` with that name;
the detections correspond one to one, in order. -/
def ResultMember (r : OCRResponseResult) (key : String) (x : JValue) : Prop :=
  (key = "errcode" ∧ ∃ l, x = .num l ∧ ParseInt l = some r.ErrCode) ∨
  (key = "height" ∧ ∃ l, x = .num l ∧ ParseInt l = some r.Height) ∨
  (key = "width" ∧ ∃ l, x = .num l ∧ ParseInt l = some r.Width) ∨
  (key = "imgpath" ∧ x = .str r.ImgPath) ∨
  (key = "ocr_response" ∧ ∃ xs, x = .arr xs ∧ List.Forall₂ DetectionJSON xs r.OCRResponse)

/-- The JSON value `x` is a result envelope of the expected shape with the content `r`. -/
def ResultJSON (x : JValue) (r : OCRResponseResult) : Prop :=
  ∃ kvs, x = .obj kvs ∧ (kvs.map Prod.fst).Perm resultKeys ∧
    ∀ p ∈ kvs, ResultMember r p.1 p.2

/-- The JSON value `x` is a response of the expected shape
`\x7b"result": \x7b"errcode", "height", "width", "imgpath", "ocr_response": [...]\x7d\x7d`
with the content `r`. -/
def ResponseJSON (x : JValue) (r : OCRResponse) : Prop :=
  ∃ y, x = .obj [("result", y)] ∧ ResultJSON y r.Result

/-- The fields of `d` named in `keys`, the other fields as in `cur`. -/
def OCRResult.overlay (keys : List String) (d cur : OCRResult) : OCRResult where
  Top := if "top" ∈ keys then d.Top else cur.Top
  Bottom := if "bottom" ∈ keys then d.Bottom else cur.Bottom
  Left := if "left" ∈ keys then d.Left else cur.Left
  Right := if "right" ∈ keys then d.Right else cur.Right
  Rate := if "rate" ∈ keys then d.Rate else cur.Rate
  Text := if "text" ∈ keys then d.Text else cur.Text

/-- The fields of `r` named in `keys`, the other fields as in `cur`. -/
def OCRResponseResult.overlay (keys : List String) (r cur : OCRResponseResult) :
    OCRResponseResult where
  ErrCode := if "errcode" ∈ keys then r.ErrCode else cur.ErrCode
  Height := if "height" ∈ keys then r.Height else cur.Height
  Width := if "width" ∈ keys then r.Width else cur.Width
  ImgPath := if "imgpath" ∈ keys then r.ImgPath else cur.ImgPath
  OCRResponse := if "ocr_response" ∈ keys then r.OCRResponse else cur.OCRResponse

/-- The `float64` that a decimal literal denotes (zero for a literal out of range). -/
def f64 (lit : String) : F64 := (ParseFloat lit).getD F64.zero

/-- A response body of the expected shape with the two detections of the example. -/
def sampleBody : String :=
  "\x7b\"result\": \x7b\"errcode\": 0, \"height\": 10, \"width\": 20, \"imgpath\": \"a.png\"," ++
  " \"ocr_response\": [" ++
  "\x7b\"text\":\"A\",\"left\":1,\"right\":2,\"top\":3,\"bottom\":4,\"rate\":0.91\x7d," ++
  "\x7b\"text\":\"B\",\"left\":5,\"right\":6,\"top\":7,\"bottom\":8,\"rate\":0.5\x7d]\x7d\x7d\n"

/-- The JSON value of `sampleBody`. -/
def sampleValue : JValue :=
  .obj [("result", .obj [("errcode", .num "0"), ("height", .num "10"), ("width", .num "20"),
    ("imgpath", .str "a.png"),
    ("ocr_response", .arr [
      .obj [("text", .str "A"), ("left", .num "1"), ("right", .num "2"), ("top", .num "3"),
        ("bottom", .num "4"), ("rate", .num "0.91")],
      .obj [("text", .str "B"), ("left", .num "5"), ("right", .num "6"), ("top", .num "7"),
        ("bottom", .num "8"), ("rate", .num "0.5")]])])]

/-- The response that `sampleBody` stands for. -/
def sampleResponse : OCRResponse :=
  ⟨⟨0, 10, 20, "a.png",
    [⟨f64 "3", f64 "4", f64 "1", f64 "2", f64 "0.91", "A"⟩,
     ⟨f64 "7", f64 "8", f64 "5", f64 "6", f64 "0.5", "B"⟩]⟩⟩

/-- A JSON value that cannot be stored in an `int` field: anything but `null` and an
integer literal in the range of `int`. -/
def badInt : JValue → Bool
  | .null => false
  | .num l => (ParseInt l).isNone
  | _ => true

/-- A JSON value that cannot be stored in a `float64` field: anything but `null` and a
number in the range of `float64`. -/
def badFloat : JValue → Bool
  | .null => false
  | .num l => (ParseFloat l).isNone
  | _ => true

/-- A JSON value that cannot be stored in a `string` field. -/
def badString : JValue → Bool
  | .null => false
  | .str _ => false
  | _ => true

/-- A member of a detection object whose key selects a field and whose value has the
wrong type for that field. -/
def badDetectionMember (key : String) (x : JValue) : Bool :=
  match findField detectionFields key with
  | none => false
  | some .Text => badString x
  | some _ => badFloat x

/-- An element of `ocr_response` that is neither `null` nor an object, or an object
with a wrongly typed member. -/
def badDetection : JValue → Bool
  | .null => false
  | .obj kvs => kvs.any fun p => badDetectionMember p.1 p.2
  | _ => true

/-- A value for `ocr_response` that is neither `null` nor an array, or an array with a
wrongly typed element. -/
def badSlice : JValue → Bool
  | .null => false
  | .arr xs => xs.any badDetection
  | _ => true

def badResultMember (key : String) (x : JValue) : Bool :=
  match findField resultFields key with
  | none => false
  | some .ImgPath => badString x
  | some .OCRResponse => badSlice x
  | some _ => badInt x

/-- A value for `result` that is neither `null` nor an object, or an object with a
wrongly typed member. -/
def badResult : JValue → Bool
  | .null => false
  | .obj kvs => kvs.any fun p => badResultMember p.1 p.2
  | _ => true

def badResponseMember (key : String) (x : JValue) : Bool :=
  match findField responseFields key with
  | none => false
  | some () => badResult x

/-- A response value with a wrongly typed value somewhere: the value itself is neither
`null` nor an object, or a member that selects a field has the wrong type for it.
Members that select no field, and fields without a member, are not looked at. -/
def mistyped : JValue → Bool
  | .null => false
  | .obj kvs => kvs.any fun p => badResponseMember p.1 p.2
  | _ => true

/-- A response body that is not JSON text, or whose value is wrongly typed. -/
def rejected (body : String) : Bool :=
  match parseJSON body with
  | none => true
  | some x => mistyped x

/-- A response body of the right structure in which `errcode` is a string. -/
def mistypedBody : String :=
  "\x7b\"result\":\x7b\"errcode\":\"0\",\"height\":10,\"width\":20,\"imgpath\":\"a.png\"," ++
  "\"ocr_response\":[]\x7d\x7d"

/-- A coordinate as the summary line shows it: rounded to an integer. -/
def coordText (x : F64) : List Char := fmtFloat 0 x

/-- The confidence as the summary line shows it: `rate * 100` with one decimal. -/
def percentText (rate : F64) : List Char := fmtFloat 1 (mul100 rate)

/-- The summary line of a detection in the words of the specification: the text in
double quotes, the coordinates in the order left, right, top, bottom between
parentheses, the percentage, a percent sign, and the end of the line. -/
def summaryLine (d : OCRResult) : String :=
  String.mk (['"'] ++ d.Text.toList ++ ['"', ' ', '('] ++ coordText d.Left ++ [','] ++
    coordText d.Right ++ [','] ++ coordText d.Top ++ [','] ++ coordText d.Bottom ++
    [')', ' '] ++ percentText d.Rate ++ ['%', '\n'])

/-- The text `s` shows the integer `n`, with a minus sign when `neg`: decimal digits
and nothing else. -/
def ShowsInteger (s : List Char) (neg : Bool) (n : Nat) : Prop :=
  ∃ ds, ds ≠ [] ∧ (∀ c ∈ ds, c.isDigit = true) ∧ digitsVal ds = n ∧
    s = (if neg then ['-'] else []) ++ ds

/-- The text `s` shows `tenths / 10` with exactly one decimal, with a minus sign when
`neg`: digits, a point, one digit. -/
def ShowsTenths (s : List Char) (neg : Bool) (tenths : Nat) : Prop :=
  ∃ ds c, ds ≠ [] ∧ (∀ x ∈ ds, x.isDigit = true) ∧ c.isDigit = true ∧
    digitsVal (ds ++ [c]) = tenths ∧ s = (if neg then ['-'] else []) ++ ds ++ ['.', c]

def F64.isFinite : F64 → Bool
  | .fin _ _ _ => true
  | .inf _ => false

/-- The coordinates and the rate of a detection are finite numbers. -/
def OCRResult.finite (d : OCRResult) : Prop :=
  d.Top.isFinite = true ∧ d.Bottom.isFinite = true ∧ d.Left.isFinite = true ∧
    d.Right.isFinite = true ∧ d.Rate.isFinite = true

/-- The sign bit of a `float64`. -/
def F64.sign : F64 → Bool
  | .fin neg _ _ => neg
  | .inf neg => neg

/-- The integer nearest to the absolute value of a finite `float64`, ties to even. -/
def F64.nearestInt : F64 → Nat
  | .fin _ m e => roundHalfEven (m * 2 ^ e.toNat) (2 ^ (-e).toNat)
  | .inf _ => 0

/-- The integer nearest to ten times the absolute value of a finite `float64`, ties to
even. -/
def F64.nearestTenths : F64 → Nat
  | .fin _ m e => roundHalfEven (m * 2 ^ e.toNat * 10) (2 ^ (-e).toNat)
  | .inf _ => 0

/-- A response body of the expected shape whose one detection has a rate so large that
its product with 100 is beyond the range of `float64`. -/
def hugeRateBody : String :=
  "\x7b\"result\":\x7b\"errcode\":0,\"height\":10,\"width\":20,\"imgpath\":\"a.png\"," ++
  "\"ocr_response\":[" ++
  "\x7b\"text\":\"A\",\"left\":1,\"right\":2,\"top\":3,\"bottom\":4,\"rate\":1e307\x7d]\x7d\x7d"

/-- The scan of a value with fuel `f` has enough fuel: what it finds is found with every
amount of fuel that is at least the number of characters taken. -/
def ValueAdequate (f : Nat) : Prop :=
  ∀ d cs v rest, scanValue f d cs = some (v, rest) →
    rest.length < cs.length ∧
      ∀ g, cs.length - rest.length ≤ g → scanValue g d cs = some (v, rest)

def ElemsAdequate (f : Nat) : Prop :=
  ∀ d cs acc xs rest, scanElems f d cs acc = some (xs, rest) →
    rest.length < cs.length ∧
      ∀ g, cs.length - rest.length ≤ g → scanElems g d cs acc = some (xs, rest)

def MembersAdequate (f : Nat) : Prop :=
  ∀ d cs acc kvs rest, scanMembers f d cs acc = some (kvs, rest) →
    rest.length < cs.length ∧
      ∀ g, cs.length - rest.length ≤ g → scanMembers g d cs acc = some (kvs, rest)

/-! ## The outcomes of the two operations -/

theorem jsonMarshal_eq (s : String) : jsonMarshal ⟨s⟩ = .ok (requestBody s) := rfl

theorem base64_post_error (w : World) (b64 apiUrl : String) (e : GoError)
    (h : w.Post apiUrl "application/json" (requestBody b64) = .error e) :
    ocrRecognizeBase64 w b64 apiUrl =
      ([.Post apiUrl "application/json" (requestBody b64)],
        ⟨none, some (.errorf "API 请求失败: %v" e)⟩) := by
  simp only [ocrRecognizeBase64, jsonMarshal_eq, h]

theorem base64_body_error (w : World) (b64 apiUrl : String) (st : Nat) (e : GoError)
    (h : w.Post apiUrl "application/json" (requestBody b64) = .ok ⟨st, .error e⟩) :
    ocrRecognizeBase64 w b64 apiUrl =
      ([.Post apiUrl "application/json" (requestBody b64), .Close],
        ⟨none, some (.errorf "读取 API 响应失败: %v" e)⟩) := by
  simp only [ocrRecognizeBase64, jsonMarshal_eq, h]

theorem base64_decode_error (w : World) (b64 apiUrl : String) (st : Nat) (body : String)
    (e : GoError)
    (h : w.Post apiUrl "application/json" (requestBody b64) = .ok ⟨st, .ok body⟩)
    (hu : jsonUnmarshal body OCRResponse.zero = .error e) :
    ocrRecognizeBase64 w b64 apiUrl =
      ([.Post apiUrl "application/json" (requestBody b64), .Close],
        ⟨none, some (.errorf "解析响应 JSON 失败: %v" e)⟩) := by
  simp only [ocrRecognizeBase64, jsonMarshal_eq, h, hu]

theorem base64_success (w : World) (b64 apiUrl : String) (st : Nat) (body : String)
    (r : OCRResponse)
    (h : w.Post apiUrl "application/json" (requestBody b64) = .ok ⟨st, .ok body⟩)
    (hu : jsonUnmarshal body OCRResponse.zero = .ok r) :
    ocrRecognizeBase64 w b64 apiUrl =
      (.Post apiUrl "application/json" (requestBody b64) :: .Print "OCR识别结果:\n" ::
        (r.Result.OCRResponse.map printResult ++ [.Close]), ⟨some r, none⟩) := by
  simp only [ocrRecognizeBase64, jsonMarshal_eq, h, hu]

/-- The four outcomes of `ocrRecognizeBase64`, by what the world answers. -/
theorem ocrRecognizeBase64_cases (w : World) (b64 apiUrl : String) :
    (∃ e, w.Post apiUrl "application/json" (requestBody b64) = .error e ∧
      ocrRecognizeBase64 w b64 apiUrl =
        ([.Post apiUrl "application/json" (requestBody b64)],
          ⟨none, some (.errorf "API 请求失败: %v" e)⟩)) ∨
    (∃ st e, w.Post apiUrl "application/json" (requestBody b64) = .ok ⟨st, .error e⟩ ∧
      ocrRecognizeBase64 w b64 apiUrl =
        ([.Post apiUrl "application/json" (requestBody b64), .Close],
          ⟨none, some (.errorf "读取 API 响应失败: %v" e)⟩)) ∨
    (∃ st body e, w.Post apiUrl "application/json" (requestBody b64) = .ok ⟨st, .ok body⟩ ∧
      jsonUnmarshal body OCRResponse.zero = .error e ∧
      ocrRecognizeBase64 w b64 apiUrl =
        ([.Post apiUrl "application/json" (requestBody b64), .Close],
          ⟨none, some (.errorf "解析响应 JSON 失败: %v" e)⟩)) ∨
    (∃ st body r, w.Post apiUrl "application/json" (requestBody b64) = .ok ⟨st, .ok body⟩ ∧
      jsonUnmarshal body OCRResponse.zero = .ok r ∧
      ocrRecognizeBase64 w b64 apiUrl =
        (.Post apiUrl "application/json" (requestBody b64) :: .Print "OCR识别结果:\n" ::
          (r.Result.OCRResponse.map printResult ++ [.Close]), ⟨some r, none⟩)) := by
  cases hp : w.Post apiUrl "application/json" (requestBody b64) with
  | error e => exact Or.inl ⟨e, rfl, base64_post_error w b64 apiUrl e hp⟩
  | ok resp =>
    obtain ⟨st, bd⟩ := resp
    cases bd with
    | error e => exact Or.inr (Or.inl ⟨st, e, rfl, base64_body_error w b64 apiUrl st e hp⟩)
    | ok body =>
      cases hu : jsonUnmarshal body OCRResponse.zero with
      | error e =>
        exact Or.inr (Or.inr (Or.inl
          ⟨st, body, e, rfl, hu, base64_decode_error w b64 apiUrl st body e hp hu⟩))
      | ok r =>
        exact Or.inr (Or.inr (Or.inr
          ⟨st, body, r, rfl, hu, base64_success w b64 apiUrl st body r hp hu⟩))

theorem stdout_append (a b : List Event) : stdout (a ++ b) = stdout a ++ stdout b := by
  simp [stdout, List.filterMap_append]

theorem posts_append (a b : List Event) : posts (a ++ b) = posts a ++ posts b := by
  simp [posts, List.filterMap_append]

theorem stdout_map_printResult (ds : List OCRResult) :
    stdout (ds.map printResult) =
      ds.map detectionLine := by
  induction ds with
  | nil => rfl
  | cons d ds ih =>
    simp only [List.map_cons, stdout, printResult, detectionLine, List.filterMap_cons] at ih ⊢
    rw [ih]

theorem posts_map_printResult (ds : List OCRResult) : posts (ds.map printResult) = [] := by
  induction ds with
  | nil => rfl
  | cons d ds ih =>
    simp only [List.map_cons, posts, printResult, List.filterMap_cons] at ih ⊢
    rw [ih]


theorem recognize_path (w : World) (imagePath imageUrl apiUrl : String) (b : List Byte)
    (hp : imagePath ≠ "") (hr : w.ReadFile imagePath = .ok b) :
    ocrRecognize w imagePath imageUrl apiUrl =
      (.ReadFile imagePath :: (ocrRecognizeBase64 w (EncodeToString b) apiUrl).1,
        (ocrRecognizeBase64 w (EncodeToString b) apiUrl).2) := by
  simp only [ocrRecognize, hp, hr, ne_eq, not_false_eq_true, if_true]

theorem recognize_path_error (w : World) (imagePath imageUrl apiUrl : String) (e : GoError)
    (hp : imagePath ≠ "") (hr : w.ReadFile imagePath = .error e) :
    ocrRecognize w imagePath imageUrl apiUrl =
      ([.ReadFile imagePath], ⟨none, some (.errorf "读取本地图像失败: %v" e)⟩) := by
  simp only [ocrRecognize, hp, hr, ne_eq, not_false_eq_true, if_true]

theorem recognize_url (w : World) (imageUrl apiUrl : String) (st : Nat) (b : List Byte)
    (hu : imageUrl ≠ "") (hg : w.Get imageUrl = .ok ⟨st, .ok b⟩) :
    ocrRecognize w "" imageUrl apiUrl =
      (.Get imageUrl :: ((ocrRecognizeBase64 w (EncodeToString b) apiUrl).1 ++ [.Close]),
        (ocrRecognizeBase64 w (EncodeToString b) apiUrl).2) := by
  simp only [ocrRecognize, hu, hg, ne_eq, not_true_eq_false, not_false_eq_true, if_true,
    if_false]

theorem recognize_url_error (w : World) (imageUrl apiUrl : String) (e : GoError)
    (hu : imageUrl ≠ "") (hg : w.Get imageUrl = .error e) :
    ocrRecognize w "" imageUrl apiUrl =
      ([.Get imageUrl], ⟨none, some (.errorf "下载图像失败: %v" e)⟩) := by
  simp only [ocrRecognize, hu, hg, ne_eq, not_true_eq_false, not_false_eq_true, if_true,
    if_false]

theorem recognize_url_body_error (w : World) (imageUrl apiUrl : String) (st : Nat)
    (e : GoError) (hu : imageUrl ≠ "") (hg : w.Get imageUrl = .ok ⟨st, .error e⟩) :
    ocrRecognize w "" imageUrl apiUrl =
      ([.Get imageUrl, .Close], ⟨none, some (.errorf "读取图像数据失败: %v" e)⟩) := by
  simp only [ocrRecognize, hu, hg, ne_eq, not_true_eq_false, not_false_eq_true, if_true,
    if_false]

theorem recognize_none (w : World) (apiUrl : String) :
    ocrRecognize w "" "" apiUrl = ([], ⟨none, some (.text "请提供 imagePath 或 imageUrl")⟩) := by
  simp only [ocrRecognize, ne_eq, not_true_eq_false, if_false]

theorem posts_base64 (w : World) (b64 apiUrl : String) :
    posts (ocrRecognizeBase64 w b64 apiUrl).1 =
      [(apiUrl, "application/json", requestBody b64)] := by
  rcases ocrRecognizeBase64_cases w b64 apiUrl with ⟨e, _, h⟩ | ⟨st, e, _, h⟩ |
    ⟨st, body, e, _, _, h⟩ | ⟨st, body, r, _, _, h⟩
  · rw [h]; rfl
  · rw [h]; rfl
  · rw [h]; rfl
  · rw [h]
    show posts ([Event.Post apiUrl "application/json" (requestBody b64),
      Event.Print "OCR识别结果:\n"] ++ (r.Result.OCRResponse.map printResult ++ [.Close])) = _
    rw [posts_append, posts_append, posts_map_printResult]
    rfl

theorem base64_error_silent (w : World) (b64 apiUrl : String)
    (h : (ocrRecognizeBase64 w b64 apiUrl).2.err ≠ none) :
    (ocrRecognizeBase64 w b64 apiUrl).2.resp = none ∧
      stdout (ocrRecognizeBase64 w b64 apiUrl).1 = [] := by
  rcases ocrRecognizeBase64_cases w b64 apiUrl with ⟨e, _, h1⟩ | ⟨st, e, _, h1⟩ |
    ⟨st, body, e, _, _, h1⟩ | ⟨st, body, r, _, _, h1⟩
  · rw [h1]; exact ⟨rfl, rfl⟩
  · rw [h1]; exact ⟨rfl, rfl⟩
  · rw [h1]; exact ⟨rfl, rfl⟩
  · rw [h1] at h; exact absurd rfl h

theorem base64_err_ne_text (w : World) (b64 apiUrl msg : String) :
    (ocrRecognizeBase64 w b64 apiUrl).2.err ≠ some (.text msg) := by
  rcases ocrRecognizeBase64_cases w b64 apiUrl with ⟨e, _, h1⟩ | ⟨st, e, _, h1⟩ |
    ⟨st, body, e, _, _, h1⟩ | ⟨st, body, r, _, _, h1⟩ <;>
  · rw [h1]
    intro h
    cases h

theorem base64_err_format (w : World) (b64 apiUrl format : String) (a : GoError)
    (h : (ocrRecognizeBase64 w b64 apiUrl).2.err = some (.errorf format a)) :
    format = "API 请求失败: %v" ∨ format = "读取 API 响应失败: %v" ∨
      format = "解析响应 JSON 失败: %v" := by
  rcases ocrRecognizeBase64_cases w b64 apiUrl with ⟨e, _, h1⟩ | ⟨st, e, _, h1⟩ |
    ⟨st, body, e, _, _, h1⟩ | ⟨st, body, r, _, _, h1⟩
  · rw [h1] at h
    simp only [Option.some.injEq, GoError.errorf.injEq] at h
    exact Or.inl h.1.symm
  · rw [h1] at h
    simp only [Option.some.injEq, GoError.errorf.injEq] at h
    exact Or.inr (Or.inl h.1.symm)
  · rw [h1] at h
    simp only [Option.some.injEq, GoError.errorf.injEq] at h
    exact Or.inr (Or.inr h.1.symm)
  · rw [h1] at h
    cases h

theorem recognize_ignores_url (w : World) (imagePath imageUrl apiUrl : String)
    (hp : imagePath ≠ "") :
    ocrRecognize w imagePath imageUrl apiUrl = ocrRecognize w imagePath "" apiUrl := by
  cases hr : w.ReadFile imagePath with
  | error e =>
    rw [recognize_path_error w imagePath imageUrl apiUrl e hp hr,
      recognize_path_error w imagePath "" apiUrl e hp hr]
  | ok b =>
    rw [recognize_path w imagePath imageUrl apiUrl b hp hr,
      recognize_path w imagePath "" apiUrl b hp hr]

theorem recognize_path_err_ne_text (w : World) (imagePath imageUrl apiUrl msg : String)
    (hp : imagePath ≠ "") :
    (ocrRecognize w imagePath imageUrl apiUrl).2.err ≠ some (.text msg) := by
  cases hr : w.ReadFile imagePath with
  | error e =>
    rw [recognize_path_error w imagePath imageUrl apiUrl e hp hr]
    intro h
    cases h
  | ok b =>
    rw [recognize_path w imagePath imageUrl apiUrl b hp hr]
    exact base64_err_ne_text w _ apiUrl msg

theorem recognize_url_err_ne_text (w : World) (imageUrl apiUrl msg : String)
    (hu : imageUrl ≠ "") :
    (ocrRecognize w "" imageUrl apiUrl).2.err ≠ some (.text msg) := by
  cases hg : w.Get imageUrl with
  | error e =>
    rw [recognize_url_error w imageUrl apiUrl e hu hg]
    intro h
    cases h
  | ok resp =>
    obtain ⟨st, bd⟩ := resp
    cases bd with
    | error e =>
      rw [recognize_url_body_error w imageUrl apiUrl st e hu hg]
      intro h
      cases h
    | ok b =>
      rw [recognize_url w imageUrl apiUrl st b hu hg]
      exact base64_err_ne_text w _ apiUrl msg

theorem stdout_base64_success (w : World) (b64 apiUrl : String) (st : Nat) (body : String)
    (r : OCRResponse)
    (h : w.Post apiUrl "application/json" (requestBody b64) = .ok ⟨st, .ok body⟩)
    (hu : jsonUnmarshal body OCRResponse.zero = .ok r) :
    stdout (ocrRecognizeBase64 w b64 apiUrl).1 =
      "OCR识别结果:\n" :: r.Result.OCRResponse.map detectionLine := by
  rw [base64_success w b64 apiUrl st body r h hu]
  show stdout ([Event.Post apiUrl "application/json" (requestBody b64),
      Event.Print "OCR识别结果:\n"] ++ (r.Result.OCRResponse.map printResult ++ [.Close])) = _
  rw [stdout_append, stdout_append, stdout_map_printResult]
  have h1 : stdout [Event.Close] = [] := rfl
  rw [h1, List.append_nil]
  rfl

theorem decChar_encChar_fin : ∀ i : Fin 64, decChar (encodeStd.getD i.val 'A') = some i.val := by
  decide

theorem decChar_encChar (v : Nat) : decChar (encChar v) = some (v % 64) :=
  decChar_encChar_fin ⟨v % 64, Nat.mod_lt _ (by decide)⟩

/-- A property of every letter of the alphabet and of the padding character holds for
every character of an encoding. -/
theorem encodeChars_forall (P : Char → Prop) (hP : ∀ i : Fin 64, P (encodeStd.getD i.val 'A'))
    (hpad : P '=') (b : List Byte) : ∀ c ∈ encodeChars b, P c := by
  have hE : ∀ v, P (encChar v) := fun v => hP ⟨v % 64, Nat.mod_lt _ (by decide)⟩
  induction b using encodeChars.induct with
  | case1 b0 b1 b2 rest ih =>
    intro c hc
    simp only [encodeChars, List.mem_cons] at hc
    rcases hc with h | h | h | h | h
    · rw [h]; exact hE _
    · rw [h]; exact hE _
    · rw [h]; exact hE _
    · rw [h]; exact hE _
    · exact ih c h
  | case2 b0 b1 =>
    intro c hc
    simp only [encodeChars, List.mem_cons, List.not_mem_nil, or_false] at hc
    rcases hc with h | h | h | h
    · rw [h]; exact hE _
    · rw [h]; exact hE _
    · rw [h]; exact hE _
    · rw [h]; exact hpad
  | case3 b0 =>
    intro c hc
    simp only [encodeChars, List.mem_cons, List.not_mem_nil, or_false] at hc
    rcases hc with h | h | h | h
    · rw [h]; exact hE _
    · rw [h]; exact hE _
    · rw [h]; exact hpad
    · rw [h]; exact hpad
  | case4 =>
    intro c hc
    cases hc

theorem encChar_ne_pad (v : Nat) : encChar v ≠ '=' := by
  have h : ∀ i : Fin 64, encodeStd.getD i.val 'A' ≠ '=' := by decide
  exact h ⟨v % 64, Nat.mod_lt _ (by decide)⟩

theorem decode_encode (b : List Byte) : decodeChars (encodeChars b) = some b := by
  induction b using encodeChars.induct with
  | case1 b0 b1 b2 rest ih =>
    simp only [encodeChars, decodeChars, encChar_ne_pad, if_false, decChar_encChar,
      Option.bind_some, Option.some_bind, ih]
    obtain ⟨x0, h0⟩ := b0
    obtain ⟨x1, h1⟩ := b1
    obtain ⟨x2, h2⟩ := b2
    simp only [mkByte, Option.some.injEq, List.cons.injEq, Fin.mk.injEq, and_true]
    refine ⟨?_, ?_, ?_⟩ <;> omega
  | case2 b0 b1 =>
    simp only [encodeChars, decodeChars, encChar_ne_pad, if_false, if_true, decChar_encChar,
      Option.bind_some, Option.some_bind]
    obtain ⟨x0, h0⟩ := b0
    obtain ⟨x1, h1⟩ := b1
    simp only [mkByte, Option.some.injEq, List.cons.injEq, Fin.mk.injEq, and_true]
    refine ⟨?_, ?_⟩ <;> omega
  | case3 b0 =>
    simp only [encodeChars, decodeChars, encChar_ne_pad, if_false, if_true, decChar_encChar,
      Option.bind_some, Option.some_bind]
    obtain ⟨x0, h0⟩ := b0
    simp only [mkByte, Option.some.injEq, List.cons.injEq, Fin.mk.injEq, and_true]
    omega
  | case4 => rfl

theorem filter_eq_self_of_forall {α : Type} (p : α → Bool) (l : List α)
    (h : ∀ a ∈ l, p a = true) : l.filter p = l := by
  induction l with
  | nil => rfl
  | cons a l ih =>
    rw [List.filter_cons, h a (List.mem_cons_self a l),
      if_pos rfl, ih (fun x hx => h x (List.mem_cons_of_mem a hx))]

/-- Decoding an encoding gives the bytes back. -/
theorem DecodeString_EncodeToString (b : List Byte) :
    DecodeString (EncodeToString b) = some b := by
  unfold DecodeString EncodeToString
  show decodeChars ((encodeChars b).filter fun c => !(c = '\r' || c = '\n')) = some b
  rw [filter_eq_self_of_forall _ _
    (encodeChars_forall (fun c => (!(decide (c = '\r') || decide (c = '\n'))) = true)
      (by decide) (by decide) b)]
  exact decode_encode b

theorem scanString_quote (rest : List Char) : scanString ('"' :: rest) = some ([], rest) := by
  rw [scanString.eq_def]
  rfl

theorem scanString_cons_plain (c : Char) (rest : List Char) (h : plainChar c) :
    scanString (c :: rest) = (scanString rest).map fun (s, r) => (c :: s, r) := by
  obtain ⟨h1, h2, h3, _⟩ := h
  rw [scanString.eq_def]
  simp only [if_neg h1, if_neg h2, if_neg h3]

theorem scanString_plain (s rest : List Char) (h : ∀ c ∈ s, plainChar c) :
    scanString (s ++ '"' :: rest) = some (s, rest) := by
  induction s with
  | nil => exact scanString_quote rest
  | cons c s ih =>
    rw [List.cons_append, scanString_cons_plain c _ (h c (List.mem_cons_self c s)),
      ih (fun x hx => h x (List.mem_cons_of_mem c hx))]
    rfl

theorem unquote_plain (s : List Char) (h : ∀ c ∈ s, plainChar c) : unquote s = s := by
  unfold unquote
  induction s with
  | nil => rfl
  | cons c s ih =>
    obtain ⟨_, h2, _, _⟩ := h c (List.mem_cons_self c s)
    rw [unquoteAux, if_neg h2, ih (fun x hx => h x (List.mem_cons_of_mem c hx))]

theorem quoteChars_plain (s : List Char) (h : ∀ c ∈ s, plainChar c) :
    quoteChars s = '"' :: (s ++ ['"']) := by
  unfold quoteChars
  congr 2
  induction s with
  | nil => rfl
  | cons c s ih =>
    rw [List.flatMap_cons, (h c (List.mem_cons_self c s)).2.2.2,
      ih (fun x hx => h x (List.mem_cons_of_mem c hx))]
    rfl

theorem encodeChars_plain (b : List Byte) : ∀ c ∈ encodeChars b, plainChar c :=
  encodeChars_forall plainChar (by unfold plainChar; decide) (by unfold plainChar; decide) b


theorem scanValue_string (fuel depth : Nat) (cs : List Char) :
    scanValue (fuel + 1) depth ('"' :: cs) =
      (scanString cs).map fun (s, r) => (JValue.str (String.mk (unquote s)), r) := by
  rw [scanValue]
  rfl

theorem scanValue_object_quote (fuel : Nat) (cs : List Char) :
    scanValue (fuel + 1) 0 ('\x7b' :: '"' :: cs) =
      (scanMembers fuel 1 ('"' :: cs) []).map fun (kvs, r1) => (JValue.obj kvs, r1) := by
  rw [scanValue]
  rfl

theorem scanMembers_quote (fuel depth : Nat) (cs : List Char) (acc : List (String × JValue)) :
    scanMembers (fuel + 1) depth ('"' :: cs) acc =
      (scanString cs).bind fun (raw, r) =>
        if (skipSpace r).head? = some ':' then
          (scanValue fuel depth (skipSpace (skipSpace r).tail)).bind fun (v, r2) =>
            if (skipSpace r2).head? = some ',' then
              scanMembers fuel depth (skipSpace (skipSpace r2).tail)
                (acc ++ [(String.mk (unquote raw), v)])
            else if (skipSpace r2).head? = some '\x7d' then
              some (acc ++ [(String.mk (unquote raw), v)], (skipSpace r2).tail)
            else none
        else none := by
  rw [scanMembers]
  rfl

theorem parseChars_request (s : List Char) (h : ∀ c ∈ s, plainChar c) :
    parseChars ("\x7b\"image\":".toList ++ ('"' :: (s ++ ['"'])) ++ ['\x7d']) =
      some (.obj [("image", .str (String.mk s))]) := by
  have hlen : ∃ k, ("\x7b\"image\":".toList ++ ('"' :: (s ++ ['"'])) ++ ['\x7d']).length + 1
      = k + 3 := ⟨s.length + 10, by simp [List.length_append]⟩
  obtain ⟨k, hk⟩ := hlen
  unfold parseChars
  rw [hk]
  have e1 : "\x7b\"image\":".toList ++ ('"' :: (s ++ ['"'])) ++ ['\x7d'] =
      '\x7b' :: '"' :: 'i' :: 'm' :: 'a' :: 'g' :: 'e' :: '"' :: ':' :: '"' ::
        (s ++ ['"', '\x7d']) := by
    simp
  rw [e1]
  have hkey : scanString ('i' :: 'm' :: 'a' :: 'g' :: 'e' :: '"' :: ':' :: '"' ::
        (s ++ ['"', '\x7d'])) =
      some (['i', 'm', 'a', 'g', 'e'], ':' :: '"' :: (s ++ ['"', '\x7d'])) :=
    scanString_plain ['i', 'm', 'a', 'g', 'e'] _ (by unfold plainChar; decide)
  have hval : scanString (s ++ ['"', '\x7d']) = some (s, ['\x7d']) := scanString_plain s _ h
  have hukey : unquote ['i', 'm', 'a', 'g', 'e'] = ['i', 'm', 'a', 'g', 'e'] := by decide
  have hs1 : skipSpace ('\x7b' :: '"' :: 'i' :: 'm' :: 'a' :: 'g' :: 'e' :: '"' :: ':' :: '"' ::
        (s ++ ['"', '\x7d'])) = '\x7b' :: '"' :: 'i' :: 'm' :: 'a' :: 'g' :: 'e' :: '"' :: ':'
          :: '"' :: (s ++ ['"', '\x7d']) := rfl
  have hs2 : skipSpace (':' :: '"' :: (s ++ ['"', '\x7d'])) = ':' :: '"' :: (s ++ ['"', '\x7d']) :=
    rfl
  have hs3 : skipSpace ('"' :: (s ++ ['"', '\x7d'])) = '"' :: (s ++ ['"', '\x7d']) := rfl
  have hs4 : skipSpace ['\x7d'] = ['\x7d'] := rfl
  have hs5 : skipSpace [] = [] := rfl
  rw [hs1, scanValue_object_quote, scanMembers_quote, hkey]
  simp only [Option.some_bind, Option.bind_some, hs2, hs3, scanValue_string, hval,
    Option.map_some', hs4, hs5, hukey, unquote_plain s h, List.nil_append, if_true,
    List.head?_cons, List.tail_cons]
  simp [hs5]

theorem requestBody_base64 (b : List Byte) :
    requestBody (EncodeToString b) = "\x7b\"image\":\"" ++ EncodeToString b ++ "\"\x7d" := by
  unfold requestBody EncodeToString
  show String.mk ("\x7b\"image\":".toList ++ quoteChars (encodeChars b) ++ ['\x7d']) = _
  rw [quoteChars_plain _ (encodeChars_plain b)]
  apply String.ext
  simp [String.data_append]

theorem parseJSON_requestBody (b : List Byte) :
    parseJSON (requestBody (EncodeToString b)) =
      some (.obj [("image", .str (EncodeToString b))]) := by
  unfold requestBody EncodeToString parseJSON
  show parseChars ("\x7b\"image\":".toList ++ quoteChars (encodeChars b) ++ ['\x7d']) = _
  rw [quoteChars_plain _ (encodeChars_plain b)]
  exact parseChars_request _ (encodeChars_plain b)

/-- The test vectors of RFC 4648 for the word "foobar" and its prefixes. -/
theorem EncodeToString_rfc4648 :
    EncodeToString [] = "" ∧ EncodeToString [102] = "Zg==" ∧
      EncodeToString [102, 111] = "Zm8=" ∧ EncodeToString [102, 111, 111] = "Zm9v" ∧
      EncodeToString [102, 111, 111, 98] = "Zm9vYg==" ∧
      EncodeToString [102, 111, 111, 98, 97] = "Zm9vYmE=" ∧
      EncodeToString [102, 111, 111, 98, 97, 114] = "Zm9vYmFy" := by
  decide

theorem detection_setField_top (cur : OCRResult) (l : String) (f : F64)
    (hl : ParseFloat l = some f) :
    OCRResult.setField cur "top" (.num l) = .ok { cur with Top := f } := by
  simp only [OCRResult.setField, storeFloat, hl]
  rfl

theorem detection_setField_bottom (cur : OCRResult) (l : String) (f : F64)
    (hl : ParseFloat l = some f) :
    OCRResult.setField cur "bottom" (.num l) = .ok { cur with Bottom := f } := by
  simp only [OCRResult.setField, storeFloat, hl]
  rfl

theorem detection_setField_left (cur : OCRResult) (l : String) (f : F64)
    (hl : ParseFloat l = some f) :
    OCRResult.setField cur "left" (.num l) = .ok { cur with Left := f } := by
  simp only [OCRResult.setField, storeFloat, hl]
  rfl

theorem detection_setField_right (cur : OCRResult) (l : String) (f : F64)
    (hl : ParseFloat l = some f) :
    OCRResult.setField cur "right" (.num l) = .ok { cur with Right := f } := by
  simp only [OCRResult.setField, storeFloat, hl]
  rfl

theorem detection_setField_rate (cur : OCRResult) (l : String) (f : F64)
    (hl : ParseFloat l = some f) :
    OCRResult.setField cur "rate" (.num l) = .ok { cur with Rate := f } := by
  simp only [OCRResult.setField, storeFloat, hl]
  rfl

theorem detection_setField_text (cur : OCRResult) (s : String) :
    OCRResult.setField cur "text" (.str s) = .ok { cur with Text := s } := by
  simp only [OCRResult.setField, storeString]
  rfl

theorem detection_setFields_overlay (d : OCRResult) (kvs : List (String × JValue))
    (h : ∀ p ∈ kvs, DetectionMember d p.1 p.2) (cur : OCRResult) :
    OCRResult.setFields kvs cur = .ok (OCRResult.overlay (kvs.map Prod.fst) d cur) := by
  induction kvs generalizing cur with
  | nil =>
    cases cur
    rfl
  | cons p rest ih =>
    obtain ⟨k, x⟩ := p
    have hp := h (k, x) (List.mem_cons_self _ _)
    have ih1 := fun c => ih (fun q hq => h q (List.mem_cons_of_mem _ hq)) c
    rcases hp with ⟨hk, l, hx, hl⟩ | ⟨hk, l, hx, hl⟩ | ⟨hk, l, hx, hl⟩ | ⟨hk, l, hx, hl⟩ |
      ⟨hk, l, hx, hl⟩ | ⟨hk, hx⟩
    · simp only at hk hx
      subst hk
      subst hx
      rw [OCRResult.setFields, detection_setField_top cur l _ hl]
      simp only [ih1, OCRResult.overlay, List.map_cons, List.mem_cons, String.reduceEq,
        false_or, true_or, if_true, ite_self]
    · simp only at hk hx
      subst hk
      subst hx
      rw [OCRResult.setFields, detection_setField_bottom cur l _ hl]
      simp only [ih1, OCRResult.overlay, List.map_cons, List.mem_cons, String.reduceEq,
        false_or, true_or, if_true, ite_self]
    · simp only at hk hx
      subst hk
      subst hx
      rw [OCRResult.setFields, detection_setField_left cur l _ hl]
      simp only [ih1, OCRResult.overlay, List.map_cons, List.mem_cons, String.reduceEq,
        false_or, true_or, if_true, ite_self]
    · simp only at hk hx
      subst hk
      subst hx
      rw [OCRResult.setFields, detection_setField_right cur l _ hl]
      simp only [ih1, OCRResult.overlay, List.map_cons, List.mem_cons, String.reduceEq,
        false_or, true_or, if_true, ite_self]
    · simp only at hk hx
      subst hk
      subst hx
      rw [OCRResult.setFields, detection_setField_rate cur l _ hl]
      simp only [ih1, OCRResult.overlay, List.map_cons, List.mem_cons, String.reduceEq,
        false_or, true_or, if_true, ite_self]
    · simp only at hk hx
      subst hk
      subst hx
      rw [OCRResult.setFields, detection_setField_text cur]
      simp only [ih1, OCRResult.overlay, List.map_cons, List.mem_cons, String.reduceEq,
        false_or, true_or, if_true, ite_self]

/-- A detection of the expected shape decodes to its content, whatever the variable
held before. -/
theorem storeOCRResult_of_shape (x : JValue) (d cur : OCRResult) (h : DetectionJSON x d) :
    storeOCRResult x cur = .ok d := by
  obtain ⟨kvs, hx, hperm, hm⟩ := h
  subst hx
  rw [storeOCRResult, detection_setFields_overlay d kvs hm cur]
  have hk : ∀ k ∈ detectionKeys, k ∈ kvs.map Prod.fst := fun k hk => hperm.symm.subset hk
  simp only [OCRResult.overlay, hk "top" (by decide), hk "bottom" (by decide),
    hk "left" (by decide), hk "right" (by decide), hk "rate" (by decide),
    hk "text" (by decide), if_true]

theorem storeElems_of_shape (xs : List JValue) (ds : List OCRResult)
    (h : List.Forall₂ DetectionJSON xs ds) (cur : List OCRResult) :
    storeElems xs cur = .ok ds := by
  induction h generalizing cur with
  | nil => rfl
  | cons hd _ ih =>
    rw [storeElems, storeOCRResult_of_shape _ _ _ hd]
    simp only [ih]

theorem result_setField_errcode (cur : OCRResponseResult) (l : String) (n : Int)
    (hl : ParseInt l = some n) :
    OCRResponseResult.setField cur "errcode" (.num l) = .ok { cur with ErrCode := n } := by
  simp only [OCRResponseResult.setField, storeInt, hl]
  rfl

theorem result_setField_height (cur : OCRResponseResult) (l : String) (n : Int)
    (hl : ParseInt l = some n) :
    OCRResponseResult.setField cur "height" (.num l) = .ok { cur with Height := n } := by
  simp only [OCRResponseResult.setField, storeInt, hl]
  rfl

theorem result_setField_width (cur : OCRResponseResult) (l : String) (n : Int)
    (hl : ParseInt l = some n) :
    OCRResponseResult.setField cur "width" (.num l) = .ok { cur with Width := n } := by
  simp only [OCRResponseResult.setField, storeInt, hl]
  rfl

theorem result_setField_imgpath (cur : OCRResponseResult) (s : String) :
    OCRResponseResult.setField cur "imgpath" (.str s) = .ok { cur with ImgPath := s } := by
  simp only [OCRResponseResult.setField, storeString]
  rfl

theorem result_setField_ocr_response (cur : OCRResponseResult) (xs : List JValue)
    (ds : List OCRResult) (h : List.Forall₂ DetectionJSON xs ds) :
    OCRResponseResult.setField cur "ocr_response" (.arr xs) =
      .ok { cur with OCRResponse := ds } := by
  simp only [OCRResponseResult.setField, storeSlice, storeElems_of_shape xs ds h]
  rfl

theorem result_setFields_overlay (r : OCRResponseResult)
    (kvs : List (String × JValue)) (h : ∀ p ∈ kvs, ResultMember r p.1 p.2)
    (cur : OCRResponseResult) :
    OCRResponseResult.setFields kvs cur =
      .ok (OCRResponseResult.overlay (kvs.map Prod.fst) r cur) := by
  induction kvs generalizing cur with
  | nil =>
    cases cur
    rfl
  | cons p rest ih =>
    obtain ⟨k, x⟩ := p
    have hp := h (k, x) (List.mem_cons_self _ _)
    have ih1 := fun c => ih (fun q hq => h q (List.mem_cons_of_mem _ hq)) c
    rcases hp with ⟨hk, l, hx, hl⟩ | ⟨hk, l, hx, hl⟩ | ⟨hk, l, hx, hl⟩ | ⟨hk, hx⟩ |
      ⟨hk, xs, hx, hl⟩
    · simp only at hk hx
      subst hk
      subst hx
      rw [OCRResponseResult.setFields, result_setField_errcode cur l _ hl]
      simp only [ih1, OCRResponseResult.overlay, List.map_cons, List.mem_cons, String.reduceEq,
        false_or, true_or, if_true, ite_self]
    · simp only at hk hx
      subst hk
      subst hx
      rw [OCRResponseResult.setFields, result_setField_height cur l _ hl]
      simp only [ih1, OCRResponseResult.overlay, List.map_cons, List.mem_cons, String.reduceEq,
        false_or, true_or, if_true, ite_self]
    · simp only at hk hx
      subst hk
      subst hx
      rw [OCRResponseResult.setFields, result_setField_width cur l _ hl]
      simp only [ih1, OCRResponseResult.overlay, List.map_cons, List.mem_cons, String.reduceEq,
        false_or, true_or, if_true, ite_self]
    · simp only at hk hx
      subst hk
      subst hx
      rw [OCRResponseResult.setFields, result_setField_imgpath cur]
      simp only [ih1, OCRResponseResult.overlay, List.map_cons, List.mem_cons, String.reduceEq,
        false_or, true_or, if_true, ite_self]
    · simp only at hk hx
      subst hk
      subst hx
      rw [OCRResponseResult.setFields, result_setField_ocr_response cur xs _ hl]
      simp only [ih1, OCRResponseResult.overlay, List.map_cons, List.mem_cons, String.reduceEq,
        false_or, true_or, if_true, ite_self]

theorem storeOCRResponseResult_of_shape (x : JValue) (r cur : OCRResponseResult)
    (h : ResultJSON x r) : storeOCRResponseResult x cur = .ok r := by
  obtain ⟨kvs, hx, hperm, hm⟩ := h
  subst hx
  rw [storeOCRResponseResult, result_setFields_overlay r kvs hm cur]
  have hk : ∀ k ∈ resultKeys, k ∈ kvs.map Prod.fst := fun k hk => hperm.symm.subset hk
  simp only [OCRResponseResult.overlay, hk "errcode" (by decide), hk "height" (by decide),
    hk "width" (by decide), hk "imgpath" (by decide), hk "ocr_response" (by decide), if_true]

/-- A response of the expected shape decodes to its content. -/
theorem storeOCRResponse_of_shape (x : JValue) (r cur : OCRResponse) (h : ResponseJSON x r) :
    storeOCRResponse x cur = .ok r := by
  obtain ⟨y, hx, hy⟩ := h
  subst hx
  simp only [storeOCRResponse, OCRResponse.setFields, OCRResponse.setField]
  have e : findField responseFields "result" = some () := rfl
  simp only [e, storeOCRResponseResult_of_shape y r.Result cur.Result hy, Except.map]

theorem jsonUnmarshal_of_shape (body : String) (x : JValue) (r cur : OCRResponse)
    (hb : parseJSON body = some x) (h : ResponseJSON x r) :
    jsonUnmarshal body cur = .ok r := by
  rw [jsonUnmarshal, hb]
  exact storeOCRResponse_of_shape x r cur h


set_option maxRecDepth 100000 in
theorem parseJSON_sampleBody : parseJSON sampleBody = some sampleValue := by
  rfl

set_option maxRecDepth 100000 in
theorem sampleValue_shape : ResponseJSON sampleValue sampleResponse := by
  refine ⟨_, rfl, _, rfl, by decide, ?_⟩
  intro p hp
  simp only [List.mem_cons, List.mem_singleton, List.not_mem_nil, or_false] at hp
  rcases hp with rfl | rfl | rfl | rfl | rfl
  · exact Or.inl ⟨rfl, _, rfl, by decide⟩
  · exact Or.inr (Or.inl ⟨rfl, _, rfl, by decide⟩)
  · exact Or.inr (Or.inr (Or.inl ⟨rfl, _, rfl, by decide⟩))
  · exact Or.inr (Or.inr (Or.inr (Or.inl ⟨rfl, rfl⟩)))
  · refine Or.inr (Or.inr (Or.inr (Or.inr ⟨rfl, _, rfl, ?_⟩)))
    refine List.Forall₂.cons ?_ (List.Forall₂.cons ?_ List.Forall₂.nil)
    · refine ⟨_, rfl, by decide, ?_⟩
      intro p hp
      simp only [List.mem_cons, List.mem_singleton, List.not_mem_nil, or_false] at hp
      rcases hp with rfl | rfl | rfl | rfl | rfl | rfl
      · exact Or.inr (Or.inr (Or.inr (Or.inr (Or.inr ⟨rfl, rfl⟩))))
      · exact Or.inr (Or.inr (Or.inl ⟨rfl, _, rfl, by decide⟩))
      · exact Or.inr (Or.inr (Or.inr (Or.inl ⟨rfl, _, rfl, by decide⟩)))
      · exact Or.inl ⟨rfl, _, rfl, by decide⟩
      · exact Or.inr (Or.inl ⟨rfl, _, rfl, by decide⟩)
      · exact Or.inr (Or.inr (Or.inr (Or.inr (Or.inl ⟨rfl, _, rfl, by decide⟩))))
    · refine ⟨_, rfl, by decide, ?_⟩
      intro p hp
      simp only [List.mem_cons, List.mem_singleton, List.not_mem_nil, or_false] at hp
      rcases hp with rfl | rfl | rfl | rfl | rfl | rfl
      · exact Or.inr (Or.inr (Or.inr (Or.inr (Or.inr ⟨rfl, rfl⟩))))
      · exact Or.inr (Or.inr (Or.inl ⟨rfl, _, rfl, by decide⟩))
      · exact Or.inr (Or.inr (Or.inr (Or.inl ⟨rfl, _, rfl, by decide⟩)))
      · exact Or.inl ⟨rfl, _, rfl, by decide⟩
      · exact Or.inr (Or.inl ⟨rfl, _, rfl, by decide⟩)
      · exact Or.inr (Or.inr (Or.inr (Or.inr (Or.inl ⟨rfl, _, rfl, by decide⟩))))

theorem isOk_map {ε α β : Type} (f : α → β) (x : Except ε α) :
    (Except.map f x).isOk = x.isOk := by
  cases x <;> rfl

theorem storeInt_isOk (x : JValue) (cur : Int) : (storeInt x cur).isOk = !badInt x := by
  cases x with
  | num l =>
    simp only [storeInt, badInt]
    cases ParseInt l <;> rfl
  | _ => rfl

theorem storeFloat_isOk (x : JValue) (cur : F64) : (storeFloat x cur).isOk = !badFloat x := by
  cases x with
  | num l =>
    simp only [storeFloat, badFloat]
    cases ParseFloat l <;> rfl
  | _ => rfl

theorem storeString_isOk (x : JValue) (cur : String) :
    (storeString x cur).isOk = !badString x := by
  cases x <;> rfl

theorem detection_setField_isOk (cur : OCRResult) (k : String) (x : JValue) :
    (OCRResult.setField cur k x).isOk = !badDetectionMember k x := by
  unfold OCRResult.setField badDetectionMember
  cases findField detectionFields k with
  | none => rfl
  | some t =>
    cases t <;> simp only [isOk_map, storeFloat_isOk, storeString_isOk]

theorem detection_setFields_isOk (kvs : List (String × JValue)) (cur : OCRResult) :
    (OCRResult.setFields kvs cur).isOk = !kvs.any fun p => badDetectionMember p.1 p.2 := by
  induction kvs generalizing cur with
  | nil => rfl
  | cons p rest ih =>
    obtain ⟨k, x⟩ := p
    have h := detection_setField_isOk cur k x
    rw [OCRResult.setFields, List.any_cons]
    cases hs : OCRResult.setField cur k x with
    | error e =>
      rw [hs] at h
      have hb : badDetectionMember k x = true := by
        cases hh : badDetectionMember k x
        · rw [hh] at h; cases h
        · rfl
      simp only [hb, Bool.true_or]
      rfl
    | ok c1 =>
      rw [hs] at h
      have hb : badDetectionMember k x = false := by
        cases hh : badDetectionMember k x
        · rfl
        · rw [hh] at h; cases h
      simp only [hb, Bool.false_or]
      exact ih c1


theorem storeOCRResult_isOk (x : JValue) (cur : OCRResult) :
    (storeOCRResult x cur).isOk = !badDetection x := by
  cases x with
  | obj kvs => exact detection_setFields_isOk kvs cur
  | _ => rfl

theorem storeElems_isOk (xs : List JValue) (cur : List OCRResult) :
    (storeElems xs cur).isOk = !xs.any badDetection := by
  induction xs generalizing cur with
  | nil => rfl
  | cons x rest ih =>
    have h := storeOCRResult_isOk x (cur.headD OCRResult.zero)
    rw [storeElems, List.any_cons]
    cases hs : storeOCRResult x (cur.headD OCRResult.zero) with
    | error e =>
      rw [hs] at h
      have hb : badDetection x = true := by
        cases hh : badDetection x
        · rw [hh] at h; cases h
        · rfl
      simp only [hb, Bool.true_or]
      rfl
    | ok r =>
      rw [hs] at h
      have hb : badDetection x = false := by
        cases hh : badDetection x
        · rfl
        · rw [hh] at h; cases h
      simp only [hb, Bool.false_or]
      have h2 := ih cur.tail
      cases hr : storeElems rest cur.tail with
      | error e =>
        rw [hr] at h2
        rw [← h2]
      | ok rs =>
        rw [hr] at h2
        rw [← h2]
        rfl

theorem storeSlice_isOk (x : JValue) (cur : List OCRResult) :
    (storeSlice x cur).isOk = !badSlice x := by
  cases x with
  | arr xs => exact storeElems_isOk xs cur
  | _ => rfl

theorem result_setField_isOk (cur : OCRResponseResult) (k : String) (x : JValue) :
    (OCRResponseResult.setField cur k x).isOk = !badResultMember k x := by
  unfold OCRResponseResult.setField badResultMember
  cases findField resultFields k with
  | none => rfl
  | some t =>
    cases t <;> simp only [isOk_map, storeInt_isOk, storeString_isOk, storeSlice_isOk]

theorem result_setFields_isOk (kvs : List (String × JValue))
    (cur : OCRResponseResult) :
    (OCRResponseResult.setFields kvs cur).isOk = !kvs.any fun p => badResultMember p.1 p.2 := by
  induction kvs generalizing cur with
  | nil => rfl
  | cons p rest ih =>
    obtain ⟨k, x⟩ := p
    have h := result_setField_isOk cur k x
    rw [OCRResponseResult.setFields, List.any_cons]
    cases hs : OCRResponseResult.setField cur k x with
    | error e =>
      rw [hs] at h
      have hb : badResultMember k x = true := by
        cases hh : badResultMember k x
        · rw [hh] at h; cases h
        · rfl
      simp only [hb, Bool.true_or]
      rfl
    | ok c1 =>
      rw [hs] at h
      have hb : badResultMember k x = false := by
        cases hh : badResultMember k x
        · rfl
        · rw [hh] at h; cases h
      simp only [hb, Bool.false_or]
      exact ih c1

theorem storeOCRResponseResult_isOk (x : JValue) (cur : OCRResponseResult) :
    (storeOCRResponseResult x cur).isOk = !badResult x := by
  cases x with
  | obj kvs => exact result_setFields_isOk kvs cur
  | _ => rfl

theorem response_setField_isOk (cur : OCRResponse) (k : String) (x : JValue) :
    (OCRResponse.setField cur k x).isOk = !badResponseMember k x := by
  unfold OCRResponse.setField badResponseMember
  cases findField responseFields k with
  | none => rfl
  | some t => simp only [isOk_map, storeOCRResponseResult_isOk]

theorem response_setFields_isOk (kvs : List (String × JValue)) (cur : OCRResponse) :
    (OCRResponse.setFields kvs cur).isOk = !kvs.any fun p => badResponseMember p.1 p.2 := by
  induction kvs generalizing cur with
  | nil => rfl
  | cons p rest ih =>
    obtain ⟨k, x⟩ := p
    have h := response_setField_isOk cur k x
    rw [OCRResponse.setFields, List.any_cons]
    cases hs : OCRResponse.setField cur k x with
    | error e =>
      rw [hs] at h
      have hb : badResponseMember k x = true := by
        cases hh : badResponseMember k x
        · rw [hh] at h; cases h
        · rfl
      simp only [hb, Bool.true_or]
      rfl
    | ok c1 =>
      rw [hs] at h
      have hb : badResponseMember k x = false := by
        cases hh : badResponseMember k x
        · rfl
        · rw [hh] at h; cases h
      simp only [hb, Bool.false_or]
      exact ih c1

theorem storeOCRResponse_isOk (x : JValue) (cur : OCRResponse) :
    (storeOCRResponse x cur).isOk = !mistyped x := by
  cases x with
  | obj kvs => exact response_setFields_isOk kvs cur
  | _ => rfl

/-- The decoder fails exactly on the bodies that are not JSON text or are wrongly
typed. -/
theorem jsonUnmarshal_isOk (body : String) (cur : OCRResponse) :
    (jsonUnmarshal body cur).isOk = !rejected body := by
  unfold jsonUnmarshal rejected
  cases parseJSON body with
  | none => rfl
  | some x => exact storeOCRResponse_isOk x cur


theorem isOk_false_iff {ε α : Type} (x : Except ε α) : x.isOk = false ↔ ∃ e, x = .error e := by
  cases x with
  | error e => exact ⟨fun _ => ⟨e, rfl⟩, fun _ => rfl⟩
  | ok a =>
    refine ⟨fun h => ?_, fun h => ?_⟩
    · cases h
    · obtain ⟨e, he⟩ := h
      cases he

theorem isOk_true_iff {ε α : Type} (x : Except ε α) : x.isOk = true ↔ ∃ a, x = .ok a := by
  cases x with
  | error e =>
    refine ⟨fun h => ?_, fun h => ?_⟩
    · cases h
    · obtain ⟨a, ha⟩ := h
      cases ha
  | ok a => exact ⟨fun _ => ⟨a, rfl⟩, fun _ => rfl⟩

theorem detectionLine_eq_summaryLine (d : OCRResult) : detectionLine d = summaryLine d := by
  unfold detectionLine summaryLine Sprintf coordText percentText
  simp [doPrintf, printVerb]

theorem digit_isDigit : ∀ k : Fin 10, (Char.ofNat (k.val + 48)).isDigit = true := by decide

theorem digit_toNat : ∀ k : Fin 10, (Char.ofNat (k.val + 48)).toNat - 48 = k.val := by decide

theorem natDigitsAux_isDigit (fuel n : Nat) (acc : List Char)
    (h : ∀ c ∈ acc, c.isDigit = true) : ∀ c ∈ natDigitsAux fuel n acc, c.isDigit = true := by
  induction fuel generalizing n acc with
  | zero => exact h
  | succ fuel ih =>
    rw [natDigitsAux]
    split
    · rename_i hn
      intro c hc
      rcases List.mem_cons.1 hc with rfl | hc
      · exact digit_isDigit ⟨n, hn⟩
      · exact h c hc
    · apply ih
      intro c hc
      rcases List.mem_cons.1 hc with rfl | hc
      · exact digit_isDigit ⟨n % 10, Nat.mod_lt _ (by decide)⟩
      · exact h c hc

theorem natDigitsAux_ne_nil (fuel n : Nat) (acc : List Char) (h : acc ≠ []) :
    natDigitsAux fuel n acc ≠ [] := by
  induction fuel generalizing n acc with
  | zero => exact h
  | succ fuel ih =>
    rw [natDigitsAux]
    split
    · exact List.cons_ne_nil _ _
    · exact ih _ _ (List.cons_ne_nil _ _)

theorem natDigits_ne_nil (n : Nat) : natDigits n ≠ [] := by
  unfold natDigits
  rw [natDigitsAux]
  split
  · exact List.cons_ne_nil _ _
  · exact natDigitsAux_ne_nil _ _ _ (List.cons_ne_nil _ _)

theorem natDigits_isDigit (n : Nat) : ∀ c ∈ natDigits n, c.isDigit = true :=
  natDigitsAux_isDigit _ _ _ (fun _ h => absurd h (List.not_mem_nil _))

theorem foldl_digits (acc : List Char) (a : Nat) :
    acc.foldl (fun a c => a * 10 + (c.toNat - 48)) a =
      a * 10 ^ acc.length + acc.foldl (fun a c => a * 10 + (c.toNat - 48)) 0 := by
  induction acc generalizing a with
  | nil => simp
  | cons c acc ih =>
    rw [List.foldl_cons, ih, List.foldl_cons, ih (0 * 10 + (c.toNat - 48)), List.length_cons,
      pow_succ]
    ring

theorem digitsVal_cons (c : Char) (acc : List Char) :
    digitsVal (c :: acc) = (c.toNat - 48) * 10 ^ acc.length + digitsVal acc := by
  unfold digitsVal
  rw [List.foldl_cons, foldl_digits]
  simp

theorem digitsVal_append (xs ys : List Char) :
    digitsVal (xs ++ ys) = digitsVal xs * 10 ^ ys.length + digitsVal ys := by
  unfold digitsVal
  rw [List.foldl_append, foldl_digits]

theorem digitsVal_natDigitsAux (fuel n : Nat) (acc : List Char) (h : n < fuel) :
    digitsVal (natDigitsAux fuel n acc) = n * 10 ^ acc.length + digitsVal acc := by
  induction fuel generalizing n acc with
  | zero => omega
  | succ fuel ih =>
    rw [natDigitsAux]
    split
    · rename_i hn
      rw [digitsVal_cons, digit_toNat ⟨n, hn⟩]
    · rename_i hn
      rw [ih (n / 10) _ (by omega), digitsVal_cons, digit_toNat ⟨n % 10, Nat.mod_lt _ (by decide)⟩,
        List.length_cons, pow_succ]
      show n / 10 * (10 ^ acc.length * 10) + (n % 10 * 10 ^ acc.length + digitsVal acc) =
        n * 10 ^ acc.length + digitsVal acc
      conv_rhs => rw [← Nat.div_add_mod n 10]
      ring

/-- The digits of `n` read back give `n`. -/
theorem digitsVal_natDigits (n : Nat) : digitsVal (natDigits n) = n := by
  unfold natDigits
  rw [digitsVal_natDigitsAux _ _ _ (Nat.lt_succ_self n)]
  simp [digitsVal]

theorem natDigits_lt_ten (n : Nat) (h : n < 10) : natDigits n = [Char.ofNat (n + 48)] := by
  unfold natDigits
  rw [natDigitsAux, if_pos h]

theorem fmtFloat_zero (neg : Bool) (m : Nat) (e : Int) :
    ShowsInteger (fmtFloat 0 (.fin neg m e)) neg
      (roundHalfEven (m * 2 ^ e.toNat) (2 ^ (-e).toNat)) := by
  refine ⟨natDigits (roundHalfEven (m * 2 ^ e.toNat) (2 ^ (-e).toNat)), natDigits_ne_nil _,
    natDigits_isDigit _, digitsVal_natDigits _, ?_⟩
  simp [fmtFloat]

theorem fmtFloat_one (neg : Bool) (m : Nat) (e : Int) :
    ShowsTenths (fmtFloat 1 (.fin neg m e)) neg
      (roundHalfEven (m * 2 ^ e.toNat * 10) (2 ^ (-e).toNat)) := by
  have hlt : roundHalfEven (m * 2 ^ e.toNat * 10) (2 ^ (-e).toNat) % 10 < 10 :=
    Nat.mod_lt _ (by decide)
  refine ⟨natDigits (roundHalfEven (m * 2 ^ e.toNat * 10) (2 ^ (-e).toNat) / 10),
    Char.ofNat (roundHalfEven (m * 2 ^ e.toNat * 10) (2 ^ (-e).toNat) % 10 + 48),
    natDigits_ne_nil _, natDigits_isDigit _, digit_isDigit ⟨_, hlt⟩, ?_, ?_⟩
  · rw [digitsVal_append, digitsVal_natDigits, digitsVal_cons, digit_toNat ⟨_, hlt⟩]
    simp only [List.length_singleton, pow_one, List.length_nil, pow_zero, mul_one, digitsVal,
      List.foldl_nil, add_zero]
    exact Nat.div_add_mod' _ 10
  · simp [fmtFloat, natDigits_lt_ten _ hlt]

theorem ParseFloat_finite (l : String) (f : F64) (h : ParseFloat l = some f) :
    f.isFinite = true := by
  unfold ParseFloat at h
  split at h
  · cases h
  · split at h
    · cases h
    · simp only [Option.some.injEq] at h
      rw [← h]
      rfl

theorem storeFloat_finite (x : JValue) (cur f : F64) (h : storeFloat x cur = .ok f)
    (hc : cur.isFinite = true) : f.isFinite = true := by
  cases x with
  | null =>
    simp only [storeFloat, Except.ok.injEq] at h
    rw [← h]
    exact hc
  | num l =>
    simp only [storeFloat] at h
    cases hp : ParseFloat l with
    | none => rw [hp] at h; cases h
    | some g =>
      rw [hp] at h
      simp only [Except.ok.injEq] at h
      rw [← h]
      exact ParseFloat_finite l g hp
  | bool _ => cases h
  | str _ => cases h
  | arr _ => cases h
  | obj _ => cases h

theorem map_eq_ok {ε α β : Type} (f : α → β) (x : Except ε α) (b : β)
    (h : Except.map f x = .ok b) : ∃ a, x = .ok a ∧ f a = b := by
  cases x with
  | error e => cases h
  | ok a =>
    simp only [Except.map, Except.ok.injEq] at h
    exact ⟨a, rfl, h⟩

theorem detection_setField_finite (cur c1 : OCRResult) (k : String) (x : JValue)
    (h : OCRResult.setField cur k x = .ok c1) (hc : cur.finite) : c1.finite := by
  unfold OCRResult.setField at h
  obtain ⟨h1, h2, h3, h4, h5⟩ := hc
  cases hf : findField detectionFields k with
  | none =>
    rw [hf] at h
    simp only [Except.ok.injEq] at h
    rw [← h]
    exact ⟨h1, h2, h3, h4, h5⟩
  | some t =>
    rw [hf] at h
    cases t with
    | Top =>
      obtain ⟨v, hv, e⟩ := map_eq_ok _ _ _ h
      rw [← e]
      exact ⟨storeFloat_finite x _ v hv h1, h2, h3, h4, h5⟩
    | Bottom =>
      obtain ⟨v, hv, e⟩ := map_eq_ok _ _ _ h
      rw [← e]
      exact ⟨h1, storeFloat_finite x _ v hv h2, h3, h4, h5⟩
    | Left =>
      obtain ⟨v, hv, e⟩ := map_eq_ok _ _ _ h
      rw [← e]
      exact ⟨h1, h2, storeFloat_finite x _ v hv h3, h4, h5⟩
    | Right =>
      obtain ⟨v, hv, e⟩ := map_eq_ok _ _ _ h
      rw [← e]
      exact ⟨h1, h2, h3, storeFloat_finite x _ v hv h4, h5⟩
    | Rate =>
      obtain ⟨v, hv, e⟩ := map_eq_ok _ _ _ h
      rw [← e]
      exact ⟨h1, h2, h3, h4, storeFloat_finite x _ v hv h5⟩
    | Text =>
      obtain ⟨v, hv, e⟩ := map_eq_ok _ _ _ h
      rw [← e]
      exact ⟨h1, h2, h3, h4, h5⟩

theorem detection_setFields_finite (kvs : List (String × JValue)) (cur c1 : OCRResult)
    (h : OCRResult.setFields kvs cur = .ok c1) (hc : cur.finite) : c1.finite := by
  induction kvs generalizing cur with
  | nil =>
    simp only [OCRResult.setFields, Except.ok.injEq] at h
    rw [← h]
    exact hc
  | cons p rest ih =>
    obtain ⟨k, x⟩ := p
    rw [OCRResult.setFields] at h
    cases hs : OCRResult.setField cur k x with
    | error e => rw [hs] at h; cases h
    | ok c2 =>
      rw [hs] at h
      exact ih c2 h (detection_setField_finite cur c2 k x hs hc)

theorem storeOCRResult_finite (x : JValue) (cur d : OCRResult)
    (h : storeOCRResult x cur = .ok d) (hc : cur.finite) : d.finite := by
  cases x with
  | null =>
    simp only [storeOCRResult, Except.ok.injEq] at h
    rw [← h]
    exact hc
  | obj kvs => exact detection_setFields_finite kvs cur d h hc
  | num _ => cases h
  | bool _ => cases h
  | str _ => cases h
  | arr _ => cases h

theorem detection_zero_finite : OCRResult.zero.finite := ⟨rfl, rfl, rfl, rfl, rfl⟩

theorem headD_finite (cur : List OCRResult) (hc : ∀ d ∈ cur, d.finite) :
    (cur.headD OCRResult.zero).finite := by
  cases cur with
  | nil => exact detection_zero_finite
  | cons a _ => exact hc a (List.mem_cons_self _ _)

theorem storeElems_finite (xs : List JValue) (cur ds : List OCRResult)
    (h : storeElems xs cur = .ok ds) (hc : ∀ d ∈ cur, d.finite) : ∀ d ∈ ds, d.finite := by
  induction xs generalizing cur ds with
  | nil =>
    simp only [storeElems, Except.ok.injEq] at h
    rw [← h]
    intro d hd
    cases hd
  | cons x rest ih =>
    rw [storeElems] at h
    cases hs : storeOCRResult x (cur.headD OCRResult.zero) with
    | error e => rw [hs] at h; cases h
    | ok r =>
      rw [hs] at h
      cases hr : storeElems rest cur.tail with
      | error e => rw [hr] at h; cases h
      | ok rs =>
        rw [hr] at h
        simp only [Except.ok.injEq] at h
        rw [← h]
        intro d hd
        rcases List.mem_cons.1 hd with rfl | hd
        · exact storeOCRResult_finite x _ _ hs (headD_finite cur hc)
        · exact ih cur.tail rs hr (fun a ha => hc a (List.mem_of_mem_tail ha)) d hd

theorem storeSlice_finite (x : JValue) (cur ds : List OCRResult)
    (h : storeSlice x cur = .ok ds) (hc : ∀ d ∈ cur, d.finite) : ∀ d ∈ ds, d.finite := by
  cases x with
  | null =>
    simp only [storeSlice, Except.ok.injEq] at h
    rw [← h]
    intro d hd
    cases hd
  | arr xs => exact storeElems_finite xs cur ds h hc
  | num _ => cases h
  | bool _ => cases h
  | str _ => cases h
  | obj _ => cases h

theorem result_setField_finite (cur c1 : OCRResponseResult) (k : String)
    (x : JValue) (h : OCRResponseResult.setField cur k x = .ok c1)
    (hc : ∀ d ∈ cur.OCRResponse, d.finite) : ∀ d ∈ c1.OCRResponse, d.finite := by
  unfold OCRResponseResult.setField at h
  cases hf : findField resultFields k with
  | none =>
    rw [hf] at h
    simp only [Except.ok.injEq] at h
    rw [← h]
    exact hc
  | some t =>
    rw [hf] at h
    cases t with
    | OCRResponse =>
      obtain ⟨v, hv, e⟩ := map_eq_ok _ _ _ h
      rw [← e]
      exact storeSlice_finite x _ v hv hc
    | _ =>
      obtain ⟨v, hv, e⟩ := map_eq_ok _ _ _ h
      rw [← e]
      exact hc

theorem result_setFields_finite (kvs : List (String × JValue))
    (cur c1 : OCRResponseResult) (h : OCRResponseResult.setFields kvs cur = .ok c1)
    (hc : ∀ d ∈ cur.OCRResponse, d.finite) : ∀ d ∈ c1.OCRResponse, d.finite := by
  induction kvs generalizing cur with
  | nil =>
    simp only [OCRResponseResult.setFields, Except.ok.injEq] at h
    rw [← h]
    exact hc
  | cons p rest ih =>
    obtain ⟨k, x⟩ := p
    rw [OCRResponseResult.setFields] at h
    cases hs : OCRResponseResult.setField cur k x with
    | error e => rw [hs] at h; cases h
    | ok c2 =>
      rw [hs] at h
      exact ih c2 h (result_setField_finite cur c2 k x hs hc)

theorem storeOCRResponseResult_finite (x : JValue) (cur c1 : OCRResponseResult)
    (h : storeOCRResponseResult x cur = .ok c1)
    (hc : ∀ d ∈ cur.OCRResponse, d.finite) : ∀ d ∈ c1.OCRResponse, d.finite := by
  cases x with
  | null =>
    simp only [storeOCRResponseResult, Except.ok.injEq] at h
    rw [← h]
    exact hc
  | obj kvs => exact result_setFields_finite kvs cur c1 h hc
  | num _ => cases h
  | bool _ => cases h
  | str _ => cases h
  | arr _ => cases h

theorem response_setField_finite (cur c1 : OCRResponse) (k : String) (x : JValue)
    (h : OCRResponse.setField cur k x = .ok c1)
    (hc : ∀ d ∈ cur.Result.OCRResponse, d.finite) : ∀ d ∈ c1.Result.OCRResponse, d.finite := by
  unfold OCRResponse.setField at h
  cases hf : findField responseFields k with
  | none =>
    rw [hf] at h
    simp only [Except.ok.injEq] at h
    rw [← h]
    exact hc
  | some t =>
    rw [hf] at h
    obtain ⟨v, hv, e⟩ := map_eq_ok _ _ _ h
    rw [← e]
    exact storeOCRResponseResult_finite x _ v hv hc

theorem response_setFields_finite (kvs : List (String × JValue)) (cur c1 : OCRResponse)
    (h : OCRResponse.setFields kvs cur = .ok c1)
    (hc : ∀ d ∈ cur.Result.OCRResponse, d.finite) : ∀ d ∈ c1.Result.OCRResponse, d.finite := by
  induction kvs generalizing cur with
  | nil =>
    simp only [OCRResponse.setFields, Except.ok.injEq] at h
    rw [← h]
    exact hc
  | cons p rest ih =>
    obtain ⟨k, x⟩ := p
    rw [OCRResponse.setFields] at h
    cases hs : OCRResponse.setField cur k x with
    | error e => rw [hs] at h; cases h
    | ok c2 =>
      rw [hs] at h
      exact ih c2 h (response_setField_finite cur c2 k x hs hc)

/-- Every coordinate and rate of a decoded response is a finite number. -/
theorem jsonUnmarshal_finite (body : String) (r : OCRResponse)
    (h : jsonUnmarshal body OCRResponse.zero = .ok r) : ∀ d ∈ r.Result.OCRResponse, d.finite := by
  unfold jsonUnmarshal at h
  cases hp : parseJSON body with
  | none => rw [hp] at h; cases h
  | some x =>
    rw [hp] at h
    have hz : ∀ d ∈ OCRResponse.zero.Result.OCRResponse, d.finite := by
      intro d hd
      cases hd
    cases x with
    | null =>
      simp only [storeOCRResponse, Except.ok.injEq] at h
      rw [← h]
      exact hz
    | obj kvs => exact response_setFields_finite kvs _ r h hz
    | num _ => cases h
    | bool _ => cases h
    | str _ => cases h
    | arr _ => cases h

theorem coordText_shows (x : F64) (h : x.isFinite = true) :
    ShowsInteger (coordText x) x.sign x.nearestInt := by
  cases x with
  | fin neg m e => exact fmtFloat_zero neg m e
  | inf _ => cases h

theorem percentText_shows (rate : F64) (h : (mul100 rate).isFinite = true) :
    ShowsTenths (percentText rate) (mul100 rate).sign (mul100 rate).nearestTenths := by
  unfold percentText
  cases hm : mul100 rate with
  | fin neg m e => exact fmtFloat_one neg m e
  | inf _ => rw [hm] at h; cases h

theorem percentText_overflow (rate : F64) (h : (mul100 rate).isFinite = false) :
    percentText rate = "+Inf".toList ∨ percentText rate = "-Inf".toList := by
  unfold percentText
  cases hm : mul100 rate with
  | fin neg m e => rw [hm] at h; cases h
  | inf neg =>
    cases neg
    · exact Or.inl rfl
    · exact Or.inr rfl

theorem skipSpace_length_le (cs : List Char) : (skipSpace cs).length ≤ cs.length := by
  induction cs with
  | nil => exact Nat.le_refl _
  | cons c cs ih =>
    rw [skipSpace]
    split
    · exact Nat.le_succ_of_le ih
    · exact Nat.le_refl _

theorem takeDigits_length_le (cs : List Char) : (takeDigits cs).2.length ≤ cs.length := by
  induction cs with
  | nil => exact Nat.le_refl _
  | cons c cs ih =>
    rw [takeDigits]
    split
    · exact Nat.le_succ_of_le ih
    · exact Nat.le_refl _

theorem scanInt_length (cs ip r : List Char) (h : scanInt cs = some (ip, r)) :
    r.length < cs.length := by
  cases cs with
  | nil => cases h
  | cons c t =>
    rw [scanInt] at h
    split at h
    · simp only [Option.some.injEq, Prod.mk.injEq] at h
      rw [← h.2]
      exact Nat.lt_succ_self _
    · split at h
      · simp only [Option.some.injEq, Prod.mk.injEq] at h
        rw [← h.2]
        exact Nat.lt_succ_of_le (takeDigits_length_le t)
      · cases h

theorem scanFrac_length (cs fp r : List Char) (h : scanFrac cs = some (fp, r)) :
    r.length ≤ cs.length := by
  cases cs with
  | nil =>
    simp only [scanFrac, Option.some.injEq, Prod.mk.injEq] at h
    rw [← h.2]
  | cons c t =>
    rw [scanFrac] at h
    split at h
    · split at h
      · cases h
      · simp only [Option.some.injEq, Prod.mk.injEq] at h
        rw [← h.2]
        exact Nat.le_succ_of_le (takeDigits_length_le t)
    · simp only [Option.some.injEq, Prod.mk.injEq] at h
      rw [← h.2]

theorem scanExp_length (cs ep r : List Char) (h : scanExp cs = some (ep, r)) :
    r.length ≤ cs.length := by
  cases cs with
  | nil =>
    simp only [scanExp, Option.some.injEq, Prod.mk.injEq] at h
    rw [← h.2]
  | cons c t =>
    rw [scanExp] at h
    by_cases he : c = 'e' ∨ c = 'E'
    · rw [if_pos he] at h
      simp only at h
      by_cases hsg : t.head? = some '+' ∨ t.head? = some '-'
      · simp only [if_pos hsg] at h
        by_cases hd : (takeDigits t.tail).1 = []
        · rw [if_pos hd] at h
          cases h
        · rw [if_neg hd] at h
          simp only [Option.some.injEq, Prod.mk.injEq] at h
          rw [← h.2]
          have := takeDigits_length_le t.tail
          rw [List.length_tail] at this
          rw [List.length_cons]
          omega
      · simp only [if_neg hsg] at h
        by_cases hd : (takeDigits t).1 = []
        · rw [if_pos hd] at h
          cases h
        · rw [if_neg hd] at h
          simp only [Option.some.injEq, Prod.mk.injEq] at h
          rw [← h.2]
          exact Nat.le_succ_of_le (takeDigits_length_le t)
    · rw [if_neg he] at h
      simp only [Option.some.injEq, Prod.mk.injEq] at h
      rw [← h.2]

theorem scanNumber_length (cs : List Char) (s : String) (r : List Char)
    (h : scanNumber cs = some (s, r)) : r.length < cs.length := by
  unfold scanNumber at h
  simp only at h
  cases h1 : scanInt (if cs.head? = some '-' then cs.tail else cs) with
  | none => rw [h1] at h; cases h
  | some p1 =>
    obtain ⟨ip, cs1⟩ := p1
    rw [h1] at h
    simp only [Option.some_bind, Option.bind_some] at h
    cases h2 : scanFrac cs1 with
    | none => rw [h2] at h; cases h
    | some p2 =>
      obtain ⟨fp, cs2⟩ := p2
      rw [h2] at h
      simp only [Option.some_bind, Option.bind_some] at h
      cases h3 : scanExp cs2 with
      | none => rw [h3] at h; cases h
      | some p3 =>
        obtain ⟨ep, cs3⟩ := p3
        rw [h3] at h
        simp only [Option.some_bind, Option.bind_some, Option.some.injEq, Prod.mk.injEq] at h
        rw [← h.2]
        have l1 := scanInt_length _ _ _ h1
        have l2 := scanFrac_length _ _ _ h2
        have l3 := scanExp_length _ _ _ h3
        have l0 : (if cs.head? = some '-' then cs.tail else cs).length ≤ cs.length := by
          split
          · rw [List.length_tail]
            omega
          · exact Nat.le_refl _
        omega

theorem expectLit_length (p cs r : List Char) (h : expectLit p cs = some r) :
    r.length ≤ cs.length := by
  unfold expectLit at h
  split at h
  · simp only [Option.some.injEq] at h
    rw [← h, List.length_drop]
    omega
  · cases h

theorem map_fst_eq_some {α β γ : Type} (g : α → γ) (x : Option (α × β)) (s : γ) (r : β)
    (h : x.map (fun p => (g p.1, p.2)) = some (s, r)) : ∃ s0, x = some (s0, r) := by
  cases x with
  | none => cases h
  | some p =>
    obtain ⟨p1, p2⟩ := p
    simp only [Option.map_some', Option.some.injEq, Prod.mk.injEq] at h
    exact ⟨p1, by rw [h.2]⟩

theorem scanString_length (n : Nat) : ∀ (cs s r : List Char), cs.length ≤ n →
    scanString cs = some (s, r) → r.length < cs.length := by
  induction n with
  | zero =>
    intro cs s r hn h
    cases cs with
    | nil => cases h
    | cons c rest => cases hn
  | succ n ih =>
    intro cs s r hn h
    cases cs with
    | nil => cases h
    | cons c rest =>
      have hrest : rest.length ≤ n := Nat.le_of_succ_le_succ hn
      rw [scanString.eq_def] at h
      simp only at h
      by_cases h1 : c = '"'
      · rw [if_pos h1] at h
        simp only [Option.some.injEq, Prod.mk.injEq] at h
        rw [← h.2]
        exact Nat.lt_succ_self _
      · rw [if_neg h1] at h
        by_cases h2 : c = '\\'
        · rw [if_pos h2] at h
          cases rest with
          | nil => cases h
          | cons e rest1 =>
            simp only at h
            by_cases h3 : e = 'u'
            · rw [if_pos h3] at h
              match rest1, h, hrest with
              | a1 :: a2 :: a3 :: a4 :: rest2, h, hrest =>
                simp only at h
                split at h
                · obtain ⟨s0, hs0⟩ :=
                    map_fst_eq_some (fun x => c :: e :: a1 :: a2 :: a3 :: a4 :: x) _ _ _ h
                  have := ih rest2 s0 r (by simp only [List.length_cons] at hrest; omega) hs0
                  simp only [List.length_cons]
                  omega
                · cases h
              | [], h, _ => cases h
              | [_], h, _ => cases h
              | [_, _], h, _ => cases h
              | [_, _, _], h, _ => cases h
            · rw [if_neg h3] at h
              split at h
              · obtain ⟨s0, hs0⟩ := map_fst_eq_some (fun x => c :: e :: x) _ _ _ h
                have := ih rest1 s0 r (by simp only [List.length_cons] at hrest; omega) hs0
                simp only [List.length_cons]
                omega
              · cases h
        · rw [if_neg h2] at h
          split at h
          · cases h
          · obtain ⟨s0, hs0⟩ := map_fst_eq_some _ _ _ _ h
            have := ih rest s0 r hrest hs0
            simp only [List.length_cons]
            omega


theorem tail_length_lt (cs : List Char) (c : Char) (h : cs.head? = some c) :
    cs.tail.length < cs.length := by
  cases cs with
  | nil => cases h
  | cons _ _ => exact Nat.lt_succ_self _

theorem scanValue_adequate_step (f : Nat) (hE : ElemsAdequate f) (hM : MembersAdequate f) :
    ValueAdequate (f + 1) := by
  intro d cs v rest h
  cases cs with
  | nil => simp [scanValue] at h
  | cons c t =>
    have key : rest.length < (c :: t).length →
        (∀ g', scanValue (g' + 1) d (c :: t) = some (v, rest)) →
        rest.length < (c :: t).length ∧
          ∀ g, (c :: t).length - rest.length ≤ g → scanValue g d (c :: t) = some (v, rest) := by
      intro hl hg
      refine ⟨hl, fun g hge => ?_⟩
      cases g with
      | zero => omega
      | succ g' => exact hg g'
    have hsk := skipSpace_length_le t
    rw [scanValue] at h
    by_cases h1 : c = '\x7b'
    · rw [if_pos h1] at h
      by_cases hd : d + 1 > maxNestingDepth
      · rw [if_pos hd] at h; cases h
      · rw [if_neg hd] at h
        by_cases h2 : (skipSpace t).head? = some '\x7d'
        · rw [if_pos h2] at h
          have hl := tail_length_lt _ _ h2
          simp only [Option.some.injEq, Prod.mk.injEq] at h
          obtain ⟨hv, hr⟩ := h
          apply key
          · rw [← hr, List.length_cons]; omega
          · intro g'
            rw [scanValue, if_pos h1, if_neg hd, if_pos h2, hv, hr]
        · rw [if_neg h2] at h
          obtain ⟨kvs, hk⟩ := map_fst_eq_some (fun x => JValue.obj x) _ _ _ h
          have hv : v = JValue.obj kvs := by
            rw [hk] at h
            simp only [Option.map_some', Option.some.injEq, Prod.mk.injEq] at h
            exact h.1.symm
          obtain ⟨hl, hg⟩ := hM (d + 1) _ _ _ _ hk
          refine ⟨by rw [List.length_cons]; omega, fun g hge => ?_⟩
          cases g with
          | zero => rw [List.length_cons] at hge; omega
          | succ g' =>
            rw [scanValue, if_pos h1, if_neg hd, if_neg h2,
              hg g' (by rw [List.length_cons] at hge; omega), hv]
            rfl
    · rw [if_neg h1] at h
      by_cases h3 : c = '['
      · rw [if_pos h3] at h
        by_cases hd : d + 1 > maxNestingDepth
        · rw [if_pos hd] at h; cases h
        · rw [if_neg hd] at h
          by_cases h2 : (skipSpace t).head? = some ']'
          · rw [if_pos h2] at h
            have hl := tail_length_lt _ _ h2
            simp only [Option.some.injEq, Prod.mk.injEq] at h
            obtain ⟨hv, hr⟩ := h
            apply key
            · rw [← hr, List.length_cons]; omega
            · intro g'
              rw [scanValue, if_neg h1, if_pos h3, if_neg hd, if_pos h2, hv, hr]
          · rw [if_neg h2] at h
            obtain ⟨xs, hk⟩ := map_fst_eq_some (fun x => JValue.arr x) _ _ _ h
            have hv : v = JValue.arr xs := by
              rw [hk] at h
              simp only [Option.map_some', Option.some.injEq, Prod.mk.injEq] at h
              exact h.1.symm
            obtain ⟨hl, hg⟩ := hE (d + 1) _ _ _ _ hk
            refine ⟨by rw [List.length_cons]; omega, fun g hge => ?_⟩
            cases g with
            | zero => rw [List.length_cons] at hge; omega
            | succ g' =>
              rw [scanValue, if_neg h1, if_pos h3, if_neg hd, if_neg h2,
                hg g' (by rw [List.length_cons] at hge; omega), hv]
              rfl
      · rw [if_neg h3] at h
        have hrest : rest.length < (c :: t).length := by
          by_cases h4 : c = '"'
          · rw [if_pos h4] at h
            obtain ⟨s0, hs0⟩ :=
              map_fst_eq_some (fun s => JValue.str (String.mk (unquote s))) _ _ _ h
            have := scanString_length _ _ _ _ (Nat.le_refl _) hs0
            rw [List.length_cons]
            omega
          · rw [if_neg h4] at h
            by_cases h5 : c = '-' ∨ c.isDigit = true
            · rw [if_pos h5] at h
              obtain ⟨s0, hs0⟩ := map_fst_eq_some (fun s => JValue.num s) _ _ _ h
              exact scanNumber_length _ _ _ hs0
            · rw [if_neg h5] at h
              have lit : ∀ (p : List Char) (x : JValue),
                  (expectLit p t).map (fun r => (x, r)) = some (v, rest) →
                  rest.length < (c :: t).length := by
                intro p x hx
                cases he : expectLit p t with
                | none => rw [he] at hx; cases hx
                | some r =>
                  rw [he] at hx
                  simp only [Option.map_some', Option.some.injEq, Prod.mk.injEq] at hx
                  have := expectLit_length _ _ _ he
                  rw [← hx.2, List.length_cons]
                  omega
              by_cases h6 : c = 't'
              · rw [if_pos h6] at h
                exact lit _ _ h
              · rw [if_neg h6] at h
                by_cases h7 : c = 'f'
                · rw [if_pos h7] at h
                  exact lit _ _ h
                · rw [if_neg h7] at h
                  by_cases h8 : c = 'n'
                  · rw [if_pos h8] at h
                    exact lit _ _ h
                  · rw [if_neg h8] at h
                    cases h
        apply key hrest
        intro g'
        rw [scanValue, if_neg h1, if_neg h3]
        exact h


theorem skip_tail_length (r : List Char) (c : Char) (h : (skipSpace r).head? = some c) :
    (skipSpace (skipSpace r).tail).length + 1 ≤ r.length ∧
      (skipSpace r).tail.length + 1 ≤ r.length := by
  have h1 := tail_length_lt _ _ h
  have h2 := skipSpace_length_le r
  have h3 := skipSpace_length_le (skipSpace r).tail
  omega

theorem scanElems_adequate_step (f : Nat) (hV : ValueAdequate f) (hE : ElemsAdequate f) :
    ElemsAdequate (f + 1) := by
  intro d cs acc xs rest h
  rw [scanElems] at h
  cases hv : scanValue f d cs with
  | none => rw [hv] at h; cases h
  | some p =>
    obtain ⟨v, r⟩ := p
    rw [hv] at h
    simp only [Option.some_bind, Option.bind_some] at h
    obtain ⟨hl, hg⟩ := hV d cs v r hv
    by_cases h1 : (skipSpace r).head? = some ','
    · rw [if_pos h1] at h
      obtain ⟨hl2, hg2⟩ := hE d _ _ _ _ h
      have hs := skip_tail_length r _ h1
      refine ⟨by omega, fun g hge => ?_⟩
      cases g with
      | zero => omega
      | succ g' =>
        rw [scanElems, hg g' (by omega)]
        simp only [Option.some_bind, Option.bind_some]
        rw [if_pos h1]
        exact hg2 g' (by omega)
    · rw [if_neg h1] at h
      by_cases h2 : (skipSpace r).head? = some ']'
      · rw [if_pos h2] at h
        simp only [Option.some.injEq, Prod.mk.injEq] at h
        obtain ⟨hx, hr⟩ := h
        have hs := skip_tail_length r _ h2
        rw [← hr]
        refine ⟨by omega, fun g hge => ?_⟩
        cases g with
        | zero => omega
        | succ g' =>
          rw [scanElems, hg g' (by omega)]
          simp only [Option.some_bind, Option.bind_some]
          rw [if_neg h1, if_pos h2, hx]
      · rw [if_neg h2] at h
        cases h

theorem scanMembers_adequate_step (f : Nat) (hV : ValueAdequate f) (hM : MembersAdequate f) :
    MembersAdequate (f + 1) := by
  intro d cs acc kvs rest h
  rw [scanMembers] at h
  by_cases h0 : cs.head? = some '"'
  · rw [if_pos h0] at h
    have ht := tail_length_lt _ _ h0
    cases hs : scanString cs.tail with
    | none => rw [hs] at h; cases h
    | some p =>
      obtain ⟨raw, r⟩ := p
      rw [hs] at h
      simp only [Option.some_bind, Option.bind_some] at h
      have hr := scanString_length _ _ _ _ (Nat.le_refl _) hs
      by_cases h1 : (skipSpace r).head? = some ':'
      · rw [if_pos h1] at h
        have hs1 := skip_tail_length r _ h1
        cases hv : scanValue f d (skipSpace (skipSpace r).tail) with
        | none => rw [hv] at h; cases h
        | some q =>
          obtain ⟨v, r2⟩ := q
          rw [hv] at h
          simp only [Option.some_bind, Option.bind_some] at h
          obtain ⟨hl, hg⟩ := hV d _ v r2 hv
          by_cases h2 : (skipSpace r2).head? = some ','
          · rw [if_pos h2] at h
            obtain ⟨hl2, hg2⟩ := hM d _ _ _ _ h
            have hs2 := skip_tail_length r2 _ h2
            refine ⟨by omega, fun g hge => ?_⟩
            cases g with
            | zero => omega
            | succ g' =>
              rw [scanMembers, if_pos h0, hs]
              simp only [Option.some_bind, Option.bind_some]
              rw [if_pos h1, hg g' (by omega)]
              simp only [Option.some_bind, Option.bind_some]
              rw [if_pos h2]
              exact hg2 g' (by omega)
          · rw [if_neg h2] at h
            by_cases h3 : (skipSpace r2).head? = some '\x7d'
            · rw [if_pos h3] at h
              simp only [Option.some.injEq, Prod.mk.injEq] at h
              obtain ⟨hx, hrr⟩ := h
              have hs2 := skip_tail_length r2 _ h3
              rw [← hrr]
              refine ⟨by omega, fun g hge => ?_⟩
              cases g with
              | zero => omega
              | succ g' =>
                rw [scanMembers, if_pos h0, hs]
                simp only [Option.some_bind, Option.bind_some]
                rw [if_pos h1, hg g' (by omega)]
                simp only [Option.some_bind, Option.bind_some]
                rw [if_neg h2, if_pos h3, hx]
            · rw [if_neg h3] at h
              cases h
      · rw [if_neg h1] at h
        cases h
  · rw [if_neg h0] at h
    cases h

/-- Fuel never decides the outcome of a scan that succeeds: with every amount of fuel,
what is found is found again with any fuel that is at least the number of characters
taken. -/
theorem scan_adequate (f : Nat) : ValueAdequate f ∧ ElemsAdequate f ∧ MembersAdequate f := by
  induction f with
  | zero =>
    refine ⟨?_, ?_, ?_⟩
    · intro d cs v rest h
      rw [scanValue] at h
      cases h
    · intro d cs acc xs rest h
      rw [scanElems] at h
      cases h
    · intro d cs acc kvs rest h
      rw [scanMembers] at h
      cases h
  | succ f ih =>
    exact ⟨scanValue_adequate_step f ih.2.1 ih.2.2, scanElems_adequate_step f ih.1 ih.2.1,
      scanMembers_adequate_step f ih.1 ih.2.2⟩

/-- The fuel that `parseChars` gives the scanner is enough: a text that scans to a value
with any amount of fuel is parsed to that value. -/
theorem parseChars_complete (cs : List Char) (f : Nat) (v : JValue) (rest : List Char)
    (h : scanValue f 0 (skipSpace cs) = some (v, rest)) (hr : skipSpace rest = []) :
    parseChars cs = some v := by
  obtain ⟨hl, hg⟩ := (scan_adequate f).1 0 _ v rest h
  have hs := skipSpace_length_le cs
  unfold parseChars
  rw [hg (cs.length + 1) (by omega)]
  simp only [Option.some_bind, Option.bind_some]
  rw [if_pos hr]

/-! ## The claims -/

/-- C1: with neither an image path nor an image URL `ocrRecognize` fails with the
error "请提供 imagePath 或 imageUrl" and returns no response, whatever the API URL, and
its trace is empty: no file is read, no GET or POST is issued, nothing is printed. -/
theorem C1_no_image_source (w : World) (apiUrl : String) :
    ocrRecognize w "" "" apiUrl =
      ([], ⟨none, some (.text "请提供 imagePath 或 imageUrl")⟩) :=
  recognize_none w apiUrl

/-- C3: when `imagePath` is not empty and reading the file fails, `ocrRecognize` fails
with the error "读取本地图像失败" carrying the cause and returns no response, for every
`imageUrl` and `apiUrl`; the only action is the file read, so there is neither a GET of
`imageUrl` nor a POST to `apiUrl`. -/
theorem C3_local_read_failure (w : World) (imagePath imageUrl apiUrl : String) (e : GoError)
    (hp : imagePath ≠ "") (hr : w.ReadFile imagePath = .error e) :
    (ocrRecognize w imagePath imageUrl apiUrl).2 =
        ⟨none, some (.errorf "读取本地图像失败: %v" e)⟩ ∧
      (ocrRecognize w imagePath imageUrl apiUrl).1 = [.ReadFile imagePath] ∧
      ∀ ev ∈ (ocrRecognize w imagePath imageUrl apiUrl).1, ev.isNetwork = false := by
  rw [recognize_path_error w imagePath imageUrl apiUrl e hp hr]
  refine ⟨rfl, rfl, ?_⟩
  intro ev hev
  rw [List.mem_singleton] at hev
  rw [hev]
  rfl

theorem C3_local_read_failure_witness :
    (ocrRecognize deadWorld "/tmp/missing.png" "http://h/img.png" "http://h/ocr").2 =
        ⟨none, some (.errorf "读取本地图像失败: %v" (.text "open: no such file or directory"))⟩ ∧
      (ocrRecognize deadWorld "/tmp/missing.png" "http://h/img.png" "http://h/ocr").1 =
        [.ReadFile "/tmp/missing.png"] ∧
      ∀ ev ∈ (ocrRecognize deadWorld "/tmp/missing.png" "http://h/img.png" "http://h/ocr").1,
        ev.isNetwork = false :=
  C3_local_read_failure deadWorld "/tmp/missing.png" "http://h/img.png" "http://h/ocr"
    (.text "open: no such file or directory") (by decide) rfl


/-- C2 (amended): `ocrRecognize` requires at least one of `imagePath` and `imageUrl`:
a call gets past the argument check (does not fail with "请提供 imagePath 或 imageUrl")
exactly when one of the two is not empty.  A call with both non-empty is accepted; it
uses `imagePath` and ignores `imageUrl`, so it behaves as the call with an empty
`imageUrl`. -/
theorem C2_some_source_required (w : World) (imagePath imageUrl apiUrl : String) :
    ((ocrRecognize w imagePath imageUrl apiUrl).2.err ≠
        some (.text "请提供 imagePath 或 imageUrl") ↔ (imagePath ≠ "" ∨ imageUrl ≠ "")) ∧
      (imagePath ≠ "" →
        ocrRecognize w imagePath imageUrl apiUrl = ocrRecognize w imagePath "" apiUrl) := by
  refine ⟨⟨?_, ?_⟩, recognize_ignores_url w imagePath imageUrl apiUrl⟩
  · intro h
    by_contra hne
    have h1 : imagePath = "" := by
      by_contra h1
      exact hne (Or.inl h1)
    have h2 : imageUrl = "" := by
      by_contra h2
      exact hne (Or.inr h2)
    subst h1
    subst h2
    exact h (by rw [recognize_none])
  · intro h
    by_cases hp : imagePath = ""
    · subst hp
      rcases h with h | h
      · exact absurd rfl h
      · exact recognize_url_err_ne_text w imageUrl apiUrl _ h
    · exact recognize_path_err_ne_text w imagePath imageUrl apiUrl _ hp

set_option maxRecDepth 100000 in
theorem C2_some_source_required_witness :
    ((ocrRecognize (serverWorld [65] 200 200 errorBody) "a.png" "http://h/a.png" "http://h/ocr").2.err
        ≠ some (.text "请提供 imagePath 或 imageUrl") ↔
        (("a.png" : String) ≠ "" ∨ ("http://h/a.png" : String) ≠ "")) ∧
      ((("a.png" : String) ≠ "") →
        ocrRecognize (serverWorld [65] 200 200 errorBody) "a.png" "http://h/a.png" "http://h/ocr" =
          ocrRecognize (serverWorld [65] 200 200 errorBody) "a.png" "" "http://h/ocr") :=
  C2_some_source_required (serverWorld [65] 200 200 errorBody) "a.png" "http://h/a.png"
    "http://h/ocr"

set_option maxRecDepth 100000 in
/-- C2, counterexample: a call with both `imagePath` and `imageUrl` non-empty is not
rejected; it reads the file, posts it, and returns a response. -/
theorem C2_both_sources_counterexample :
    ("a.png" : String) ≠ "" ∧ ("http://h/a.png" : String) ≠ "" ∧
      ocrRecognize (serverWorld [65] 200 200 errorBody) "a.png" "http://h/a.png" "http://h/ocr" =
        ([.ReadFile "a.png",
          .Post "http://h/ocr" "application/json" "\x7b\"image\":\"QQ==\"\x7d",
          .Print "OCR识别结果:\n", .Close],
          ⟨some ⟨⟨-7, 0, 0, "", []⟩⟩, none⟩) := by
  decide


/-- C8: there is no partial success.  Whenever `ocrRecognizeBase64` or `ocrRecognize`
returns an error, the returned response is nil and nothing has been printed (neither
the header nor a detection line); and when `ocrRecognize` fails while obtaining the
image (no source, file read, GET, or reading the GET body) no POST has been issued. -/
theorem C8_no_partial_success (w : World) (imagePath imageUrl base64Image apiUrl : String) :
    ((ocrRecognizeBase64 w base64Image apiUrl).2.err ≠ none →
        (ocrRecognizeBase64 w base64Image apiUrl).2.resp = none ∧
          stdout (ocrRecognizeBase64 w base64Image apiUrl).1 = []) ∧
      ((ocrRecognize w imagePath imageUrl apiUrl).2.err ≠ none →
        (ocrRecognize w imagePath imageUrl apiUrl).2.resp = none ∧
          stdout (ocrRecognize w imagePath imageUrl apiUrl).1 = []) ∧
      (((imagePath = "" ∧ imageUrl = "") ∨
          (imagePath ≠ "" ∧ ∃ e, w.ReadFile imagePath = .error e) ∨
          (imagePath = "" ∧ imageUrl ≠ "" ∧ ∃ e, w.Get imageUrl = .error e) ∨
          (imagePath = "" ∧ imageUrl ≠ "" ∧ ∃ st e, w.Get imageUrl = .ok ⟨st, .error e⟩)) →
        (ocrRecognize w imagePath imageUrl apiUrl).2.err ≠ none ∧
          posts (ocrRecognize w imagePath imageUrl apiUrl).1 = []) := by
  refine ⟨base64_error_silent w base64Image apiUrl, ?_, ?_⟩
  · intro h
    by_cases hp : imagePath = ""
    · subst hp
      by_cases hu : imageUrl = ""
      · subst hu
        rw [recognize_none]
        exact ⟨rfl, rfl⟩
      · cases hg : w.Get imageUrl with
        | error e =>
          rw [recognize_url_error w imageUrl apiUrl e hu hg]
          exact ⟨rfl, rfl⟩
        | ok resp =>
          obtain ⟨st, bd⟩ := resp
          cases bd with
          | error e =>
            rw [recognize_url_body_error w imageUrl apiUrl st e hu hg]
            exact ⟨rfl, rfl⟩
          | ok b =>
            rw [recognize_url w imageUrl apiUrl st b hu hg] at h ⊢
            have hb := base64_error_silent w (EncodeToString b) apiUrl h
            refine ⟨hb.1, ?_⟩
            show stdout ([Event.Get imageUrl] ++
              ((ocrRecognizeBase64 w (EncodeToString b) apiUrl).1 ++ [.Close])) = []
            rw [stdout_append, stdout_append, hb.2]
            rfl
    · cases hr : w.ReadFile imagePath with
      | error e =>
        rw [recognize_path_error w imagePath imageUrl apiUrl e hp hr]
        exact ⟨rfl, rfl⟩
      | ok b =>
        rw [recognize_path w imagePath imageUrl apiUrl b hp hr] at h ⊢
        have hb := base64_error_silent w (EncodeToString b) apiUrl h
        refine ⟨hb.1, ?_⟩
        show stdout ([Event.ReadFile imagePath] ++
          (ocrRecognizeBase64 w (EncodeToString b) apiUrl).1) = []
        rw [stdout_append, hb.2]
        rfl
  · rintro (⟨hp, hu⟩ | ⟨hp, e, hr⟩ | ⟨hp, hu, e, hg⟩ | ⟨hp, hu, st, e, hg⟩)
    · subst hp
      subst hu
      rw [recognize_none]
      exact ⟨by simp, rfl⟩
    · rw [recognize_path_error w imagePath imageUrl apiUrl e hp hr]
      exact ⟨by simp, rfl⟩
    · subst hp
      rw [recognize_url_error w imageUrl apiUrl e hu hg]
      exact ⟨by simp, rfl⟩
    · subst hp
      rw [recognize_url_body_error w imageUrl apiUrl st e hu hg]
      exact ⟨by simp, rfl⟩

set_option maxRecDepth 100000 in
theorem C8_no_partial_success_witness :
    ((ocrRecognizeBase64 (serverWorld [65] 200 200 "[1,2") "QQ==" "http://h/ocr").2.resp = none ∧
        stdout (ocrRecognizeBase64 (serverWorld [65] 200 200 "[1,2") "QQ==" "http://h/ocr").1
          = []) ∧
      ((ocrRecognize (serverWorld [65] 200 200 "[1,2") "a.png" "" "http://h/ocr").2.resp = none ∧
        stdout (ocrRecognize (serverWorld [65] 200 200 "[1,2") "a.png" "" "http://h/ocr").1
          = []) ∧
      ((ocrRecognize deadWorld "a.png" "" "http://h/ocr").2.err ≠ none ∧
        posts (ocrRecognize deadWorld "a.png" "" "http://h/ocr").1 = []) :=
  ⟨(C8_no_partial_success (serverWorld [65] 200 200 "[1,2") "a.png" "" "QQ==" "http://h/ocr").1
      (by decide),
   (C8_no_partial_success (serverWorld [65] 200 200 "[1,2") "a.png" "" "QQ==" "http://h/ocr").2.1
      (by decide),
   (C8_no_partial_success deadWorld "a.png" "" "QQ==" "http://h/ocr").2.2
      (Or.inr (Or.inl ⟨by decide, _, rfl⟩))⟩

/-- C9: the HTTP status of the API response and the value of `errcode` play no part.
For every status code, whenever the POST succeeds, its body is read and the body
decodes to a response `r` (with any `errcode`), `ocrRecognizeBase64` returns `r` without
an error and prints the header followed by the detection lines of `r`. -/
theorem C9_status_and_errcode_ignored (w : World) (base64Image apiUrl : String)
    (status : Nat) (body : String) (r : OCRResponse)
    (hp : w.Post apiUrl "application/json" (requestBody base64Image) = .ok ⟨status, .ok body⟩)
    (hu : jsonUnmarshal body OCRResponse.zero = .ok r) :
    (ocrRecognizeBase64 w base64Image apiUrl).2 = ⟨some r, none⟩ ∧
      stdout (ocrRecognizeBase64 w base64Image apiUrl).1 =
        "OCR识别结果:\n" :: r.Result.OCRResponse.map detectionLine := by
  refine ⟨?_, stdout_base64_success w base64Image apiUrl status body r hp hu⟩
  rw [base64_success w base64Image apiUrl status body r hp hu]


set_option maxRecDepth 100000 in
theorem C9_status_and_errcode_ignored_witness :
    (ocrRecognizeBase64 (serverWorld [65] 200 500 errorBody) "QQ==" "http://h/ocr").2 =
        ⟨some ⟨⟨-7, 0, 0, "", []⟩⟩, none⟩ ∧
      stdout (ocrRecognizeBase64 (serverWorld [65] 200 500 errorBody) "QQ==" "http://h/ocr").1 =
        "OCR识别结果:\n" :: (([] : List OCRResult).map detectionLine) :=
  C9_status_and_errcode_ignored (serverWorld [65] 200 500 errorBody) "QQ==" "http://h/ocr" 500
    errorBody ⟨⟨-7, 0, 0, "", []⟩⟩ rfl (by rfl)

/-- C10: with an empty `imagePath` and a non-empty `imageUrl`, whatever status the GET
answers with, a body `b` that is read without error is taken as the image: the call
does not fail at the download step, it posts the base64 encoding of `b` to `apiUrl`,
and its result is the one of `ocrRecognizeBase64` on that encoding. -/
theorem C10_get_status_ignored (w : World) (imageUrl apiUrl : String) (status : Nat)
    (b : List Byte) (hu : imageUrl ≠ "") (hg : w.Get imageUrl = .ok ⟨status, .ok b⟩) :
    (ocrRecognize w "" imageUrl apiUrl).2 =
        (ocrRecognizeBase64 w (EncodeToString b) apiUrl).2 ∧
      (ocrRecognize w "" imageUrl apiUrl).1 =
        .Get imageUrl :: ((ocrRecognizeBase64 w (EncodeToString b) apiUrl).1 ++ [.Close]) ∧
      posts (ocrRecognize w "" imageUrl apiUrl).1 =
        [(apiUrl, "application/json", requestBody (EncodeToString b))] ∧
      (∀ e, (ocrRecognize w "" imageUrl apiUrl).2.err ≠ some (.errorf "下载图像失败: %v" e)) ∧
      (∀ e, (ocrRecognize w "" imageUrl apiUrl).2.err ≠
        some (.errorf "读取图像数据失败: %v" e)) := by
  rw [recognize_url w imageUrl apiUrl status b hu hg]
  refine ⟨rfl, rfl, ?_, ?_, ?_⟩
  · show posts ([Event.Get imageUrl] ++
      ((ocrRecognizeBase64 w (EncodeToString b) apiUrl).1 ++ [.Close])) = _
    rw [posts_append, posts_append, posts_base64]
    rfl
  · intro e h
    rcases base64_err_format w _ apiUrl _ e h with h1 | h1 | h1 <;> revert h1 <;> decide
  · intro e h
    rcases base64_err_format w _ apiUrl _ e h with h1 | h1 | h1 <;> revert h1 <;> decide

set_option maxRecDepth 100000 in
theorem C10_get_status_ignored_witness :
    (ocrRecognize (serverWorld [60, 104, 49, 62] 404 200 errorBody) "" "http://h/a.png"
        "http://h/ocr").2 =
        (ocrRecognizeBase64 (serverWorld [60, 104, 49, 62] 404 200 errorBody)
          (EncodeToString [60, 104, 49, 62]) "http://h/ocr").2 ∧
      (ocrRecognize (serverWorld [60, 104, 49, 62] 404 200 errorBody) "" "http://h/a.png"
        "http://h/ocr").1 =
        .Get "http://h/a.png" :: ((ocrRecognizeBase64
          (serverWorld [60, 104, 49, 62] 404 200 errorBody)
          (EncodeToString [60, 104, 49, 62]) "http://h/ocr").1 ++ [.Close]) ∧
      posts (ocrRecognize (serverWorld [60, 104, 49, 62] 404 200 errorBody) "" "http://h/a.png"
        "http://h/ocr").1 =
        [("http://h/ocr", "application/json", requestBody (EncodeToString [60, 104, 49, 62]))] ∧
      (∀ e, (ocrRecognize (serverWorld [60, 104, 49, 62] 404 200 errorBody) "" "http://h/a.png"
        "http://h/ocr").2.err ≠ some (.errorf "下载图像失败: %v" e)) ∧
      (∀ e, (ocrRecognize (serverWorld [60, 104, 49, 62] 404 200 errorBody) "" "http://h/a.png"
        "http://h/ocr").2.err ≠ some (.errorf "读取图像数据失败: %v" e)) :=
  C10_get_status_ignored (serverWorld [60, 104, 49, 62] 404 200 errorBody) "http://h/a.png"
    "http://h/ocr" 404 [60, 104, 49, 62] (by decide) rfl

/-- C7: whenever the image source (the local file, or else the GET body) yields the
bytes `b`, the one POST of `ocrRecognize` goes to `apiUrl` with content type
`application/json` and with a body that is the JSON object with the single member
`image`, whose string value is the base64 encoding of `b`; and decoding that encoding
gives exactly `b` back, for every `b`. -/
theorem C7_request_body_round_trip (w : World) (imagePath imageUrl apiUrl : String)
    (b : List Byte)
    (hsrc : (imagePath ≠ "" ∧ w.ReadFile imagePath = .ok b) ∨
      (imagePath = "" ∧ imageUrl ≠ "" ∧ ∃ st, w.Get imageUrl = .ok ⟨st, .ok b⟩)) :
    posts (ocrRecognize w imagePath imageUrl apiUrl).1 =
        [(apiUrl, "application/json", "\x7b\"image\":\"" ++ EncodeToString b ++ "\"\x7d")] ∧
      parseJSON ("\x7b\"image\":\"" ++ EncodeToString b ++ "\"\x7d") =
        some (.obj [("image", .str (EncodeToString b))]) ∧
      DecodeString (EncodeToString b) = some b := by
  rw [← requestBody_base64]
  refine ⟨?_, parseJSON_requestBody b, DecodeString_EncodeToString b⟩
  rcases hsrc with ⟨hp, hr⟩ | ⟨hp, hu, st, hg⟩
  · rw [recognize_path w imagePath imageUrl apiUrl b hp hr]
    show posts ([Event.ReadFile imagePath] ++
      (ocrRecognizeBase64 w (EncodeToString b) apiUrl).1) = _
    rw [posts_append, posts_base64]
    rfl
  · subst hp
    rw [recognize_url w imageUrl apiUrl st b hu hg]
    show posts ([Event.Get imageUrl] ++
      ((ocrRecognizeBase64 w (EncodeToString b) apiUrl).1 ++ [.Close])) = _
    rw [posts_append, posts_append, posts_base64]
    rfl

set_option maxRecDepth 100000 in
theorem C7_request_body_round_trip_witness :
    posts (ocrRecognize (serverWorld [102, 111, 111, 98] 200 200 errorBody) "a.png" ""
        "http://h/ocr").1 =
        [("http://h/ocr", "application/json",
          "\x7b\"image\":\"" ++ EncodeToString [102, 111, 111, 98] ++ "\"\x7d")] ∧
      parseJSON ("\x7b\"image\":\"" ++ EncodeToString [102, 111, 111, 98] ++ "\"\x7d") =
        some (.obj [("image", .str (EncodeToString [102, 111, 111, 98]))]) ∧
      DecodeString (EncodeToString [102, 111, 111, 98]) = some [102, 111, 111, 98] :=
  C7_request_body_round_trip (serverWorld [102, 111, 111, 98] 200 200 errorBody) "a.png" ""
    "http://h/ocr" [102, 111, 111, 98] (Or.inl ⟨by decide, rfl⟩)

/-- C5: a response body of the expected shape is returned as it is.  When the body of
the API response is JSON text whose value is a response object of the expected shape
with the content `r` (the members of each object in any order), `ocrRecognizeBase64`
succeeds and returns exactly `r`: `errcode`, `height`, `width` and `imgpath` are the
values of the JSON, and the detections are those of `ocr_response`, as many and in the
same order, each with its six fields.  The same holds for `ocrRecognize` once the image
bytes `b` are obtained from the file or from the download. -/
theorem C5_well_formed_response_returned (w : World)
    (imagePath imageUrl base64Image apiUrl : String) (b : List Byte) (status : Nat)
    (body : String) (x : JValue) (r : OCRResponse)
    (hb : parseJSON body = some x) (hx : ResponseJSON x r) :
    (w.Post apiUrl "application/json" (requestBody base64Image) = .ok ⟨status, .ok body⟩ →
        (ocrRecognizeBase64 w base64Image apiUrl).2 = ⟨some r, none⟩) ∧
      (((imagePath ≠ "" ∧ w.ReadFile imagePath = .ok b) ∨
          (imagePath = "" ∧ imageUrl ≠ "" ∧ ∃ st, w.Get imageUrl = .ok ⟨st, .ok b⟩)) →
        w.Post apiUrl "application/json" (requestBody (EncodeToString b)) =
          .ok ⟨status, .ok body⟩ →
        (ocrRecognize w imagePath imageUrl apiUrl).2 = ⟨some r, none⟩) := by
  have hu := jsonUnmarshal_of_shape body x r OCRResponse.zero hb hx
  refine ⟨?_, ?_⟩
  · intro hp
    rw [base64_success w base64Image apiUrl status body r hp hu]
  · intro hsrc hp
    rcases hsrc with ⟨h1, hr⟩ | ⟨h1, h2, st, hg⟩
    · rw [recognize_path w imagePath imageUrl apiUrl b h1 hr,
        base64_success w _ apiUrl status body r hp hu]
    · subst h1
      rw [recognize_url w imageUrl apiUrl st b h2 hg,
        base64_success w _ apiUrl status body r hp hu]

theorem C5_well_formed_response_returned_witness :
    (ocrRecognizeBase64 (serverWorld [65] 200 200 sampleBody) "QQ==" "http://h/ocr").2 =
        ⟨some sampleResponse, none⟩ ∧
      (ocrRecognize (serverWorld [65] 200 200 sampleBody) "" "http://h/a.png" "http://h/ocr").2 =
        ⟨some sampleResponse, none⟩ :=
  ⟨(C5_well_formed_response_returned (serverWorld [65] 200 200 sampleBody) "" "http://h/a.png"
      "QQ==" "http://h/ocr" [65] 200 sampleBody sampleValue sampleResponse
      parseJSON_sampleBody sampleValue_shape).1 rfl,
   (C5_well_formed_response_returned (serverWorld [65] 200 200 sampleBody) "" "http://h/a.png"
      "QQ==" "http://h/ocr" [65] 200 sampleBody sampleValue sampleResponse
      parseJSON_sampleBody sampleValue_shape).2
      (Or.inr ⟨rfl, by decide, 200, rfl⟩) rfl⟩

/-- C4 (amended): a response body is refused exactly when it is not JSON text or a value
in it has the wrong type for the field it is decoded into (the whole value or `result`
not an object, `errcode`, `height` or `width` not an integer in the range of `int`,
`imgpath` or `text` not a string, `ocr_response` not an array or an element of it not
an object, a coordinate or `rate` not a number in the range of `float64`; `null` is
accepted in every place).  For such a body `ocrRecognizeBase64` fails with the error
"解析响应 JSON 失败", returns no response and prints nothing.  Every other body is
accepted and a response is returned: missing members leave zero values and members that
match no field are skipped, so the shape need not be exact. -/
theorem C4_decode_error_iff_rejected (w : World) (base64Image apiUrl : String) (status : Nat)
    (body : String)
    (hp : w.Post apiUrl "application/json" (requestBody base64Image) = .ok ⟨status, .ok body⟩) :
    (rejected body = true →
        (∃ e, (ocrRecognizeBase64 w base64Image apiUrl).2 =
          ⟨none, some (.errorf "解析响应 JSON 失败: %v" e)⟩) ∧
        stdout (ocrRecognizeBase64 w base64Image apiUrl).1 = []) ∧
      (rejected body = false →
        ∃ r, (ocrRecognizeBase64 w base64Image apiUrl).2 = ⟨some r, none⟩) := by
  have h := jsonUnmarshal_isOk body OCRResponse.zero
  refine ⟨fun hr => ?_, fun hr => ?_⟩
  · rw [hr] at h
    obtain ⟨e, he⟩ := (isOk_false_iff _).1 h
    rw [base64_decode_error w base64Image apiUrl status body e hp he]
    exact ⟨⟨e, rfl⟩, rfl⟩
  · rw [hr] at h
    obtain ⟨r, he⟩ := (isOk_true_iff _).1 h
    rw [base64_success w base64Image apiUrl status body r hp he]
    exact ⟨r, rfl⟩

set_option maxRecDepth 100000 in
theorem C4_decode_error_iff_rejected_witness :
    ((∃ e, (ocrRecognizeBase64 (serverWorld [65] 200 200 "<html>502</html>") "QQ=="
          "http://h/ocr").2 = ⟨none, some (.errorf "解析响应 JSON 失败: %v" e)⟩) ∧
        stdout (ocrRecognizeBase64 (serverWorld [65] 200 200 "<html>502</html>") "QQ=="
          "http://h/ocr").1 = []) ∧
      ((∃ e, (ocrRecognizeBase64 (serverWorld [65] 200 200 mistypedBody) "QQ=="
          "http://h/ocr").2 = ⟨none, some (.errorf "解析响应 JSON 失败: %v" e)⟩) ∧
        stdout (ocrRecognizeBase64 (serverWorld [65] 200 200 mistypedBody) "QQ=="
          "http://h/ocr").1 = []) ∧
      (∃ r, (ocrRecognizeBase64 (serverWorld [65] 200 200 sampleBody) "QQ=="
          "http://h/ocr").2 = ⟨some r, none⟩) :=
  ⟨(C4_decode_error_iff_rejected (serverWorld [65] 200 200 "<html>502</html>") "QQ=="
      "http://h/ocr" 200 "<html>502</html>" rfl).1 (by decide),
   (C4_decode_error_iff_rejected (serverWorld [65] 200 200 mistypedBody) "QQ=="
      "http://h/ocr" 200 mistypedBody rfl).1 (by decide),
   (C4_decode_error_iff_rejected (serverWorld [65] 200 200 sampleBody) "QQ=="
      "http://h/ocr" 200 sampleBody rfl).2 (by decide)⟩

set_option maxRecDepth 100000 in
/-- C4, counterexample: the bodies `\x7b\x7d` and `null`, a body that lacks every member
but `errcode`, and a body with an extra member are not of the expected shape, and yet
each is accepted: a response filled with zero values is returned and the header is
printed. -/
theorem C4_misshaped_body_counterexample :
    ocrRecognizeBase64 (serverWorld [65] 200 200 "\x7b\x7d") "QQ==" "http://h/ocr" =
        ([.Post "http://h/ocr" "application/json" "\x7b\"image\":\"QQ==\"\x7d",
          .Print "OCR识别结果:\n", .Close], ⟨some OCRResponse.zero, none⟩) ∧
      ocrRecognizeBase64 (serverWorld [65] 200 200 "null") "QQ==" "http://h/ocr" =
        ([.Post "http://h/ocr" "application/json" "\x7b\"image\":\"QQ==\"\x7d",
          .Print "OCR识别结果:\n", .Close], ⟨some OCRResponse.zero, none⟩) ∧
      (ocrRecognizeBase64 (serverWorld [65] 200 200 "\x7b\"result\":\x7b\"errcode\":3\x7d\x7d")
        "QQ==" "http://h/ocr").2 = ⟨some ⟨⟨3, 0, 0, "", []⟩⟩, none⟩ ∧
      (ocrRecognizeBase64
        (serverWorld [65] 200 200 "\x7b\"result\":\x7b\"extra\":[1]\x7d,\"more\":true\x7d")
        "QQ==" "http://h/ocr").2 = ⟨some OCRResponse.zero, none⟩ := by
  decide

set_option maxRecDepth 100000 in
/-- C6 (amended): on success `ocrRecognizeBase64` prints the header and then exactly one
summary line per detection, in the order of the detections, each of the form
`"<text>" (<left>,<right>,<top>,<bottom>) <rate*100>%`: the text in double quotes, the
four coordinates in the order left, right, top, bottom, each printed as an integer (the
nearest one, ties to even), and the confidence as a percentage with one decimal place
whenever `rate*100` is finite; a `rate*100` beyond the range of `float64` is printed as
`+Inf` or `-Inf`.  For the two detections of the example the lines are
`"A" (1,2,3,4) 91.0%` and `"B" (5,6,7,8) 50.0%`. -/
theorem C6_summary_lines (w : World) (base64Image apiUrl : String) (status : Nat)
    (body : String) (r : OCRResponse)
    (hp : w.Post apiUrl "application/json" (requestBody base64Image) = .ok ⟨status, .ok body⟩)
    (hu : jsonUnmarshal body OCRResponse.zero = .ok r) :
    stdout (ocrRecognizeBase64 w base64Image apiUrl).1 =
        "OCR识别结果:\n" :: r.Result.OCRResponse.map summaryLine ∧
      (∀ d ∈ r.Result.OCRResponse,
        ShowsInteger (coordText d.Left) d.Left.sign d.Left.nearestInt ∧
        ShowsInteger (coordText d.Right) d.Right.sign d.Right.nearestInt ∧
        ShowsInteger (coordText d.Top) d.Top.sign d.Top.nearestInt ∧
        ShowsInteger (coordText d.Bottom) d.Bottom.sign d.Bottom.nearestInt ∧
        ((mul100 d.Rate).isFinite = true →
          ShowsTenths (percentText d.Rate) (mul100 d.Rate).sign (mul100 d.Rate).nearestTenths) ∧
        ((mul100 d.Rate).isFinite = false →
          percentText d.Rate = "+Inf".toList ∨ percentText d.Rate = "-Inf".toList)) ∧
      sampleResponse.Result.OCRResponse.map summaryLine =
        ["\"A\" (1,2,3,4) 91.0%\n", "\"B\" (5,6,7,8) 50.0%\n"] := by
  refine ⟨?_, ?_, by decide⟩
  · rw [stdout_base64_success w base64Image apiUrl status body r hp hu]
    congr 1
    exact List.map_congr_left (fun d _ => detectionLine_eq_summaryLine d)
  · intro d hd
    obtain ⟨h1, h2, h3, h4, _⟩ := jsonUnmarshal_finite body r hu d hd
    exact ⟨coordText_shows _ h3, coordText_shows _ h4, coordText_shows _ h1,
      coordText_shows _ h2, percentText_shows _, percentText_overflow _⟩

set_option maxRecDepth 100000 in
theorem C6_summary_lines_witness :
    stdout (ocrRecognizeBase64 (serverWorld [65] 200 200 sampleBody) "QQ==" "http://h/ocr").1 =
      ["OCR识别结果:\n", "\"A\" (1,2,3,4) 91.0%\n", "\"B\" (5,6,7,8) 50.0%\n"] := by
  have h := C6_summary_lines (serverWorld [65] 200 200 sampleBody) "QQ==" "http://h/ocr" 200
    sampleBody sampleResponse rfl (by rfl)
  rw [h.1, h.2.2]

set_option maxRecDepth 100000 in
/-- C6, counterexample: a response whose detection has the rate `1e307` is parsed, and
its summary line ends in `+Inf%`, which is not a percentage with one decimal place. -/
theorem C6_percentage_overflow_counterexample :
    ocrRecognizeBase64 (serverWorld [65] 200 200 hugeRateBody) "QQ==" "http://h/ocr" =
      ([.Post "http://h/ocr" "application/json" "\x7b\"image\":\"QQ==\"\x7d",
        .Print "OCR识别结果:\n", .Print "\"A\" (1,2,3,4) +Inf%\n", .Close],
        ⟨some ⟨⟨0, 10, 20, "a.png",
          [⟨f64 "3", f64 "4", f64 "1", f64 "2", f64 "1e307", "A"⟩]⟩⟩, none⟩) := by
  decide

end Wxocr
